import Mathlib

/-!
# Verification of the procenv layered configuration resolution engine

This file is a shallow embedding, in Lean 4, of the core of the `procenv`
repository: the canonical JSON value model (`serde_json::Value` as used by
the crate), the deep-merge algorithm (`deep_merge` in
`crates/procenv/src/file.rs`), type coercion (`coerce_value`), the
environment-variable mapper (`env_to_value` / `insert_nested`), parse-error
span construction (`offset_to_span` / `line_col_to_offset`), the error
accumulator (`Error::multiple` in `crates/procenv/src/lib.rs` together with
the field-extraction loop emitted by
`crates/procenv_macro/src/expand/config.rs`), secret redaction in the
`Display` and `Debug` implementations of `Error`, and the layered
`ConfigBuilder::merge` pipeline of `crates/procenv/src/file/builder.rs`.

Modelling conventions:
* `serde_json::Map<String, Value>` is (by default features) a `BTreeMap`
  keyed by `String` in byte-lexicographic order; it is embedded as an
  association list kept sorted by key (UTF-8 byte order coincides with
  code-point order, which is the order of Lean's `String` linear order).
* `i64` parsing is embedded exactly (sign, digits, range check).
* `f64` values produced by `coerce_value` are abstracted as exact decimal
  rationals: the embedding parses the decimal grammar exactly and does not
  model IEEE-754 rounding of the resulting value.
* Rust byte indexing into `&str` is embedded as a partial operation that
  returns `none` exactly when Rust would panic (index not on a character
  boundary); in-range clamping (`offset.min(content.len())`) is embedded
  arithmetically.
* Process state (file system, environment) is passed explicitly as
  snapshots, matching the one-shot blocking reads of the source.
-/

namespace Procenv

/-- The canonical value model: `serde_json::Value` as consumed by the crate
(spec §3). `Number` is split into the signed-integer, unsigned-integer and
float payloads that `serde_json::Number` carries internally; floats are
abstracted as rationals. Maps are association lists sorted by key
(`BTreeMap` order). -/
inductive Value where
  | null
  | bool (b : Bool)
  | int (n : Int)
  | uint (n : Nat)
  | float (q : ℚ)
  | str (s : String)
  | arr (xs : List Value)
  | obj (entries : List (String × Value))
deriving Repr

namespace Value

/-- `BTreeMap::get` on the association-list embedding. -/
def lookup (entries : List (String × Value)) (k : String) : Option Value :=
  match entries with
  | [] => none
  | (k', v) :: rest => if k' = k then some v else lookup rest k

/-- `BTreeMap::insert`: replace the value at an existing key, otherwise
insert the new entry at its sorted position. Keys are ordered by their
character lists (UTF-8 byte order and code-point order coincide). -/
def insertSorted (k : String) (v : Value) : List (String × Value) → List (String × Value)
  | [] => [(k, v)]
  | (k', v') :: rest =>
    if k.data < k'.data then (k, v) :: (k', v') :: rest
    else if k = k' then (k, v) :: rest
    else (k', v') :: insertSorted k v rest

/-- Whether a value is a JSON object (`Value::Object`). -/
def isObj : Value → Bool
  | obj _ => true
  | _ => false

/-- `Value::is_null`. -/
def isNull : Value → Bool
  | null => true
  | _ => false

end Value

open Value

mutual

/-- `deep_merge` from `crates/procenv/src/file.rs` (lines 357-372): when both
sides are objects the overlay entries are folded into the base key by key
(recursing on keys present in both, inserting fresh keys); any other pairing
replaces the base with the overlay wholesale. -/
def deep_merge : Value → Value → Value
  | Value.obj base, Value.obj overlay => Value.obj (mergeEntries base overlay)
  | _, overlay => overlay
termination_by _ overlay => sizeOf overlay

/-- The `for (key, overlay_value) in overlay_map` loop of `deep_merge`. -/
def mergeEntries (base : List (String × Value)) :
    List (String × Value) → List (String × Value)
  | [] => base
  | (k, v) :: rest => mergeEntries (mergeKey base k v) rest
termination_by l => sizeOf l

/-- One iteration of the `deep_merge` loop: `get_mut` hit recurses in place,
miss inserts the overlay value. -/
def mergeKey (base : List (String × Value)) (k : String) (v : Value) :
    List (String × Value) :=
  match Value.lookup base k with
  | some bv => Value.insertSorted k (deep_merge bv v) base
  | none => Value.insertSorted k v base
termination_by sizeOf v + 1

end

example :
    deep_merge
      (Value.obj [("a", Value.arr [Value.int 1, Value.int 2, Value.int 3])])
      (Value.obj [("a", Value.arr [Value.int 4, Value.int 5])])
    = Value.obj [("a", Value.arr [Value.int 4, Value.int 5])] := by
  simp +decide [deep_merge, mergeEntries, mergeKey, Value.lookup, Value.insertSorted]

example :
    deep_merge
      (Value.obj [("a", Value.int 1), ("b", Value.obj [("x", Value.int 10), ("y", Value.int 20)])])
      (Value.obj [("b", Value.obj [("y", Value.int 200), ("z", Value.int 30)]), ("c", Value.int 3)])
    = Value.obj [("a", Value.int 1),
        ("b", Value.obj [("x", Value.int 10), ("y", Value.int 200), ("z", Value.int 30)]),
        ("c", Value.int 3)] := by
  simp +decide [deep_merge, mergeEntries, mergeKey, Value.lookup, Value.insertSorted]

/-! ## Type coercion (`coerce_value`, file.rs lines 381-406) -/

/-- ASCII lowercasing of one character, as in Rust's byte-wise
`eq_ignore_ascii_case`. -/
def asciiLowerChar (c : Char) : Char :=
  if 'A' ≤ c ∧ c ≤ 'Z' then Char.ofNat (c.toNat + 32) else c

/-- Rust `str::eq_ignore_ascii_case`: byte-wise comparison after ASCII
lowercasing (characters outside the ASCII range are compared verbatim). -/
def eqIgnoreAsciiCase (a b : String) : Bool :=
  a.data.map asciiLowerChar == b.data.map asciiLowerChar

/-- Value of a list of ASCII digits read in base 10. -/
def digitsToNat (cs : List Char) : Nat :=
  cs.foldl (fun acc c => acc * 10 + (c.toNat - 48)) 0

/-- Rust `i64::from_str` (`s.parse::<i64>()`): an optional `+`/`-` sign
followed by one or more ASCII digits, rejected when the value overflows the
signed 64-bit range. -/
def parseI64 (s : String) : Option Int :=
  let sign : Bool × List Char :=
    match s.data with
    | '+' :: rest => (false, rest)
    | '-' :: rest => (true, rest)
    | rest => (false, rest)
  let ds := sign.2
  if ds.isEmpty || !ds.all Char.isDigit then none
  else
    let v : Int := if sign.1 then -(digitsToNat ds : Int) else (digitsToNat ds : Int)
    if -(2 ^ 63) ≤ v ∧ v ≤ 2 ^ 63 - 1 then some v else none

/-- The exponent suffix of Rust's float grammar: empty, or `e`/`E` followed
by an optionally signed digit run. -/
def parseExponent (cs : List Char) : Option Int :=
  match cs with
  | [] => some 0
  | e :: rest =>
    if e = 'e' ∨ e = 'E' then
      let sign : Bool × List Char :=
        match rest with
        | '+' :: r => (false, r)
        | '-' :: r => (true, r)
        | r => (false, r)
      let ds := sign.2
      if ds.isEmpty || !ds.all Char.isDigit then none
      else some (if sign.1 then -(digitsToNat ds : Int) else (digitsToNat ds : Int))
    else none

/-- The unsigned part of Rust's float grammar,
`Digit+ ('.' Digit*)? Exp? | '.' Digit+ Exp?`, evaluated exactly as a
rational. -/
def parseUnsignedDec (cs : List Char) : Option ℚ :=
  let intSplit := cs.span Char.isDigit
  let build (ip fp : List Char) (rest : List Char) : Option ℚ :=
    (parseExponent rest).map fun e =>
      ((digitsToNat (ip ++ fp) : ℚ) / (10 : ℚ) ^ fp.length) * (10 : ℚ) ^ e
  match intSplit.2 with
  | '.' :: afterDot =>
    let fracSplit := afterDot.span Char.isDigit
    if intSplit.1.isEmpty ∧ fracSplit.1.isEmpty then none
    else build intSplit.1 fracSplit.1 fracSplit.2
  | rest =>
    if intSplit.1.isEmpty then none
    else build intSplit.1 [] rest

/-- The composite of Rust `f64::from_str` and `serde_json::Number::from_f64`
as used in the float branch of `coerce_value`. The finite decimal grammar is
parsed exactly into a rational (IEEE-754 rounding of the parsed value is
abstracted away); the `inf`/`nan` literal forms, which `Number::from_f64`
maps to `None`, are folded into the `none` result. -/
def parseF64 (s : String) : Option ℚ :=
  match s.data with
  | '+' :: rest => parseUnsignedDec rest
  | '-' :: rest => (parseUnsignedDec rest).map Neg.neg
  | rest => parseUnsignedDec rest

/-- `coerce_value` from `crates/procenv/src/file.rs` (lines 381-406):
case-insensitive boolean literals first, then a signed 64-bit integer
parse, then — only when the string contains a decimal point — a float
parse, falling back to the unchanged string. -/
def coerce_value (s : String) : Value :=
  if eqIgnoreAsciiCase s "true" then Value.bool true
  else if eqIgnoreAsciiCase s "false" then Value.bool false
  else
    match parseI64 s with
    | some i => Value.int i
    | none =>
      if s.data.contains '.' then
        match parseF64 s with
        | some q => Value.float q
        | none => Value.str s
      else Value.str s

example : coerce_value "true" = Value.bool true := rfl
example : coerce_value "TRUE" = Value.bool true := rfl
example : coerce_value "42" = Value.int 42 := rfl
example : coerce_value "3.14" = Value.float (157 / 50) := by
  simp +decide [coerce_value, eqIgnoreAsciiCase, asciiLowerChar, parseI64, parseF64,
    parseUnsignedDec, parseExponent, digitsToNat]
  norm_num
example : coerce_value "hello world" = Value.str "hello world" := rfl
example : coerce_value "1e10" = Value.str "1e10" := rfl
example : coerce_value "5432" = Value.int 5432 := rfl

/-! ## Environment variable mapping (`env_to_value` / `insert_nested`,
file.rs lines 413-445) -/

/-- Rust `str::strip_prefix` on character lists: `some` of the remainder
when the first list is a prefix of the second. -/
def stripPrefixChars : List Char → List Char → Option (List Char)
  | [], rest => some rest
  | _ :: _, [] => none
  | p :: ps, c :: cs => if p = c then stripPrefixChars ps cs else none

/-- `insert_nested` from `crates/procenv/src/file.rs` (lines 429-445): walk
the path segments creating intermediate objects (`entry(..).or_insert_with`)
as needed; when an existing entry at an intermediate segment is not an
object, the insert is silently dropped and the map is returned unchanged. -/
def insert_nested (m : List (String × Value)) (parts : List String) (v : Value) :
    List (String × Value) :=
  match parts with
  | [] => m
  | [p] => Value.insertSorted p v m
  | p :: rest =>
    match Value.lookup m p with
    | some (Value.obj nested) =>
      Value.insertSorted p (Value.obj (insert_nested nested rest v)) m
    | some _ => m
    | none => Value.insertSorted p (Value.obj (insert_nested [] rest v)) m

/-- Rust `str::split` on a non-empty separator pattern, on character lists.
The fuel argument bounds the recursion and is always called with more fuel
than there are characters, so it never runs out for a non-empty separator. -/
def splitSepChars (sep : List Char) (fuel : Nat) (cs : List Char) (cur : List Char) :
    List (List Char) :=
  match fuel with
  | 0 => [cur.reverse]
  | fuel + 1 =>
    match stripPrefixChars sep cs with
    | some after =>
      if sep.isEmpty then [cur.reverse ++ cs]
      else cur.reverse :: splitSepChars sep fuel after []
    | none =>
      match cs with
      | [] => [cur.reverse]
      | c :: rest => splitSepChars sep fuel rest (c :: cur)

/-- Rust `str::split(separator)` collected into a list, for a non-empty
separator (the engine's separator defaults to `"_"`; the degenerate empty
separator, which Rust treats as matching at every character boundary, is
modelled as no split). -/
def splitOnSep (sep : String) (s : String) : List String :=
  (splitSepChars sep.data (s.data.length + 1) s.data []).map fun cs => String.mk cs

/-- The per-variable step of the `env_to_value` loop: variables whose name
starts with the prefix are stripped, lowercased (Rust's Unicode
`to_lowercase` abstracted to ASCII case folding — all names in the spec's
convention are ASCII), split on the separator, coerced, and inserted at the
resulting nested path. -/
def envStep (p sep : String) (root : List (String × Value)) (kv : String × String) :
    List (String × Value) :=
  match stripPrefixChars p.data kv.1.data with
  | some stripped =>
    let lowered : String := String.mk (stripped.map asciiLowerChar)
    let parts := splitOnSep sep lowered
    insert_nested root parts (coerce_value kv.2)
  | none => root

/-- `env_to_value` from `crates/procenv/src/file.rs` (lines 413-426), with
the `std::env::vars()` iteration made explicit as a snapshot list. -/
def env_to_value (p sep : String) (vars : List (String × String)) : Value :=
  Value.obj (vars.foldl (envStep p sep) [])

example :
    env_to_value "APP_" "_"
      [("APP_DATABASE_HOST", "localhost"), ("APP_DATABASE_PORT", "5432")]
    = Value.obj [("database",
        Value.obj [("host", Value.str "localhost"), ("port", Value.int 5432)])] := rfl

example :
    env_to_value "APP_" "_" [("OTHER_VAR", "x"), ("APP_DEBUG", "true")]
    = Value.obj [("debug", Value.bool true)] := rfl

/-! ## Parse-error span construction (`offset_to_span` /
`line_col_to_offset`, file.rs lines 140-160) -/

/-- The UTF-8 byte count of one character (Rust `char::len_utf8`,
`Char.utf8Size`), phrased on code points. -/
def charUtf8Size (c : Char) : Nat :=
  if c.toNat < 128 then 1
  else if c.toNat < 2048 then 2
  else if c.toNat < 65536 then 3
  else 4

/-- UTF-8 byte length of a character list (Rust `str::len`). -/
def utf8Len (cs : List Char) : Nat :=
  (cs.map charUtf8Size).sum

/-- Split a character list at every newline, keeping all (possibly empty)
parts. -/
def splitNl : List Char → List (List Char)
  | [] => [[]]
  | c :: rest =>
    match splitNl rest with
    | [] => [[c]]
    | l :: ls => if c = '\n' then [] :: l :: ls else (c :: l) :: ls

/-- Rust `str::lines`: split on `\n`, drop a final empty segment produced by
a terminating newline, and strip one trailing `\r` from each line. -/
def rustLines (cs : List Char) : List (List Char) :=
  let parts := splitNl cs
  let parts := match parts.getLast? with
    | some [] => parts.dropLast
    | _ => parts
  parts.map fun l =>
    match l.getLast? with
    | some '\r' => l.dropLast
    | _ => l

/-- The `for (i, l) in content.lines().enumerate()` loop of
`line_col_to_offset`. -/
def lineColGo (line col : Nat) : List (List Char) → Nat → Nat → Nat
  | [], _, offset => offset
  | l :: ls, i, offset =>
    if i + 1 = line then offset + (col - 1)
    else lineColGo line col ls (i + 1) (offset + utf8Len l + 1)

/-- `line_col_to_offset` from `crates/procenv/src/file.rs` (lines 151-160):
walk the lines accumulating byte offsets (`l.len() + 1` per line), and on
the requested 1-indexed line return the line start plus the saturating
`col - 1` (`Nat` subtraction is saturating). -/
def line_col_to_offset (content : String) (line col : Nat) : Nat :=
  lineColGo line col (rustLines content.data) 0 0

/-- Rust byte slicing `&content[i..]`: `none` models the panic taken when
`i` does not fall on a character boundary. `i` is assumed at most the byte
length (the caller clamps); an overshoot also yields `none`. -/
def byteSliceFrom : List Char → Nat → Option (List Char)
  | cs, 0 => some cs
  | [], _ + 1 => none
  | c :: cs, i + 1 =>
    if charUtf8Size c ≤ i + 1 then byteSliceFrom cs (i + 1 - charUtf8Size c) else none

/-- The delimiter search of `offset_to_span`: the BYTE index of the first
whitespace, comma, closing-brace or closing-bracket character (Rust
`str::find` with a char-predicate pattern; Unicode `White_Space` is
abstracted to the ASCII whitespace set, which does not affect any bound
proved below). `Char.ofNat 125` is the closing brace character. -/
def findDelim : List Char → Option Nat
  | [] => none
  | c :: cs =>
    if c.isWhitespace ∨ c = ',' ∨ c = Char.ofNat 125 ∨ c = ']' then some 0
    else (findDelim cs).map (· + charUtf8Size c)

/-- `miette::SourceSpan`: a byte offset and a byte length. -/
structure SourceSpan where
  start : Nat
  len : Nat
deriving DecidableEq, Repr

/-- `offset_to_span` from `crates/procenv/src/file.rs` (lines 140-148):
slice the content at the clamped offset (`offset.min(content.len())` — a
panic when the clamped offset is inside a multi-byte character is modelled
as `none`), then take the distance to the first delimiter, defaulting to at
most 20 bytes, with a minimum length of 1. -/
def offset_to_span (offset : Nat) (content : String) : Option SourceSpan :=
  (byteSliceFrom content.data (min offset (utf8Len content.data))).map fun remaining =>
    let len := max ((findDelim remaining).getD (min (utf8Len remaining) 20)) 1
    SourceSpan.mk offset len

example : line_col_to_offset "é" 1 2 = 1 := rfl
example : offset_to_span 1 "é" = none := rfl
example : offset_to_span 1 "a" = some (SourceSpan.mk 1 1) := rfl
example : offset_to_span 3 "ab cd,e" = some (SourceSpan.mk 3 2) := rfl
example : line_col_to_offset "ab\ncde" 2 2 = 4 := rfl

/-! ## The error type (`Error` in `crates/procenv/src/lib.rs`), its
`Display`/`Debug` rendering, and the error accumulator -/

/-- `FileError` from `crates/procenv/src/file.rs`: the file-layer error
type. The `io::Error` payload of `ReadError` and the `NamedSource` payload
of the located `Parse` variant are carried as strings. -/
inductive FileError where
  | NotFound (path : String)
  | ReadError (path : String) (ioError : String)
  | UnknownFormat (extension : String)
  | Parse (format path src : String) (span : SourceSpan) (message help : String)
  | ParseNoSpan (format message help : String)
deriving DecidableEq, Repr

/-- `Error` from `crates/procenv/src/lib.rs` (the `validator`- and
`clap`-gated variants are omitted; they are feature-gated out of the core).
The `Box<dyn Error>` source of `Parse` is carried as its `Debug` rendering.
The `Extraction` constructor stands for the value built by the
`Error::extraction` helper, whose definition is not under `src/` (only its
call sites in the generated extraction code are); modelled from the spec:
§7 classifies extraction-time type mismatches as parse-style errors carrying
the variable, the expected type and a message. -/
inductive Error where
  | Missing (var help : String)
  | InvalidUtf8 (var : String)
  | Parse (var value : String) (secret : Bool) (expectedType help sourceDbg : String)
  | Multiple (errors : List Error)
  | File (source : FileError)
  | InvalidProfile (profile var : String) (validProfiles : List String) (help : String)
  | Provider (provider message help : String)
  | Extraction (var expectedType message : String)
deriving Repr

/-- `Error::missing` (lib.rs lines 763-767). -/
def Error.missing (var : String) : Error :=
  .Missing var ("set " ++ var ++ " in your environment or .env file")

/-- `Error::parse` (lib.rs lines 773-792). -/
def Error.parse (var value : String) (secret : Bool) (expectedType : String)
    (sourceDbg : String) : Error :=
  .Parse var value secret expectedType ("expected a valid " ++ expectedType) sourceDbg

/-- `Error::multiple` (lib.rs lines 796-805): empty input collapses to
`None`, a single error is unwrapped rather than wrapped, two or more are
wrapped as `Multiple` in order. -/
def Error.multiple (errors : List Error) : Option Error :=
  match errors with
  | [] => none
  | [e] => some e
  | es => some (.Multiple es)

/-- Hexadecimal digits of a `Nat` (for Rust's `\u` escapes). -/
def hexChars (n : Nat) : List Char :=
  Nat.toDigits 16 n

/-- Rust `char::escape_debug` for one character, as used by the `Debug`
formatting of strings: escapes the quote, backslash, newline, carriage
return, tab and NUL, renders other control characters as `\u` escapes, and
leaves the rest unchanged (Rust additionally escapes some non-printable
non-ASCII code points; those are left unchanged here, which no theorem
below depends on). -/
def escapeDebugChar (c : Char) : List Char :=
  if c = '"' then ['\\', '"']
  else if c = '\\' then ['\\', '\\']
  else if c = '\n' then ['\\', 'n']
  else if c = '\r' then ['\\', 'r']
  else if c = '\t' then ['\\', 't']
  else if c.toNat = 0 then ['\\', '0']
  else if c.toNat < 32 ∨ c.toNat = 127 then
    ['\\', 'u', Char.ofNat 123] ++ hexChars c.toNat ++ [Char.ofNat 125]
  else [c]

/-- Rust `Debug` formatting of a string value (`{:?}`): surrounding quotes
and character escapes. -/
def rustDebugStr (s : String) : String :=
  "\"" ++ String.mk (s.data.foldr (fun c acc => escapeDebugChar c ++ acc) []) ++ "\""

/-- `Debug` for `bool` (`{:?}`). -/
def rustDebugBool (b : Bool) : String :=
  if b then "true" else "false"

/-- `Debug` for `Vec<&'static str>` / `Vec<String>`. -/
def rustDebugStrList (xs : List String) : String :=
  "[" ++ String.intercalate ", " (xs.map rustDebugStr) ++ "]"

/-- The `thiserror`-derived `Display for FileError` messages (file.rs). -/
def displayFileError : FileError → String
  | .NotFound path => "configuration file not found: " ++ path
  | .ReadError path _ => "failed to read configuration file: " ++ path
  | .UnknownFormat extension => "unknown configuration file format: ." ++ extension
  | .Parse format path _ _ _ _ => format ++ " parse error in " ++ path
  | .ParseNoSpan format message _ => format ++ " parse error: " ++ message

/-- The manual `Display for Error` implementation (lib.rs lines 452-514).
The `Parse` arm is the secret-masking one: a secret field renders the fixed
marker `<redacted>` in place of the `{:?}`-formatted raw value. -/
def displayError : Error → String
  | .Missing var _ => "missing required environment variable: " ++ var
  | .InvalidUtf8 var => "environment variable " ++ var ++ " contains invalid UTF-8"
  | .Parse var value secret expectedType _ _ =>
    if secret then
      "failed to parse " ++ var ++ ": expected " ++ expectedType ++ ", got <redacted>"
    else
      "failed to parse " ++ var ++ ": expected " ++ expectedType ++ ", got "
        ++ rustDebugStr value
  | .Multiple errors => toString errors.length ++ " configuration error(s) occurred"
  | .File source => "configuration file error: " ++ displayFileError source
  | .InvalidProfile profile var _ _ => "invalid profile '" ++ profile ++ "' for " ++ var
  | .Provider provider message _ => "error connecting to " ++ provider ++ ": " ++ message
  | .Extraction var expectedType _ =>
    "failed to parse " ++ var ++ ": expected " ++ expectedType

mutual

/-- The manual `Debug for Error` implementation (lib.rs lines 529-593),
rendered in `debug_struct`'s single-line format. The `Parse` arm replaces
the raw value with `"<redacted>"` when the field is secret. `\x7b` and
`\x7d` are the brace characters. -/
def debugError : Error → String
  | .Missing var help =>
    "Missing \x7b var: " ++ rustDebugStr var ++ ", help: " ++ rustDebugStr help ++ " \x7d"
  | .InvalidUtf8 var => "InvalidUtf8 \x7b var: " ++ rustDebugStr var ++ " \x7d"
  | .Parse var value secret expectedType help sourceDbg =>
    "Parse \x7b var: " ++ rustDebugStr var
      ++ ", value: " ++ (if secret then rustDebugStr "<redacted>" else rustDebugStr value)
      ++ ", secret: " ++ rustDebugBool secret
      ++ ", expected_type: " ++ rustDebugStr expectedType
      ++ ", help: " ++ rustDebugStr help
      ++ ", source: " ++ sourceDbg ++ " \x7d"
  | .Multiple errors => "Multiple \x7b errors: [" ++ debugErrorList errors ++ "] \x7d"
  | .File source => "File \x7b source: " ++ toString (repr source) ++ " \x7d"
  | .InvalidProfile profile var validProfiles help =>
    "InvalidProfile \x7b profile: " ++ rustDebugStr profile
      ++ ", var: " ++ rustDebugStr var
      ++ ", valid_profiles: " ++ rustDebugStrList validProfiles
      ++ ", help: " ++ rustDebugStr help ++ " \x7d"
  | .Provider provider message help =>
    "Provider \x7b provider: " ++ rustDebugStr provider
      ++ ", message: " ++ rustDebugStr message
      ++ ", help: " ++ rustDebugStr help ++ " \x7d"
  | .Extraction var expectedType message =>
    "Extraction \x7b var: " ++ rustDebugStr var
      ++ ", expected_type: " ++ rustDebugStr expectedType
      ++ ", message: " ++ rustDebugStr message ++ " \x7d"
termination_by e => sizeOf e

/-- Comma-separated `Debug` rendering of a `Vec<Error>`. -/
def debugErrorList : List Error → String
  | [] => ""
  | [e] => debugError e
  | e :: rest => debugError e ++ ", " ++ debugErrorList rest
termination_by es => sizeOf es

end

/-! ### The generated field-extraction pass (`__from_json_value`,
`crates/procenv_macro/src/expand/config.rs`) -/

/-- One field of a generated `__from_json_value` extraction
(`generate_field_extractions`). `parse` abstracts the typed
value-extraction of the field's Rust type (`ConfigValue::from_json(v)
.extract::<T>(..)` wrapped into `Error::extraction` — code not under
`src/`): `none` is success, `some e` the pushed error. `defaultOutcome`
abstracts the compile-time default: `none` when the field has no default,
`some none` when its default parses, `some (some e)` when parsing the
default fails. -/
structure FieldSpec where
  name : String
  optional : Bool
  defaultOutcome : Option (Option Error)
  parse : Value → Option Error

/-- The error contribution of one generated field arm: a present, non-null
value is parsed (pushing the parse error on failure); an absent or null
value pushes nothing for an optional field, the default outcome for a
defaulted field, and `Error::missing` for a required field. -/
def fieldErrs (obj : List (String × Value)) (f : FieldSpec) : List Error :=
  let absent : List Error :=
    if f.optional then []
    else
      match f.defaultOutcome with
      | some none => []
      | some (some e) => [e]
      | none => [Error.missing f.name]
  match Value.lookup obj f.name with
  | some v => if v.isNull then absent else (f.parse v).toList
  | none => absent

/-- The sequential `let __field = match ...` extraction block: every field
is evaluated, each appending its errors to the accumulator
(`__errors.push`). -/
def extractErrs (obj : List (String × Value)) (fields : List FieldSpec) : List Error :=
  fields.foldl (fun acc f => acc ++ fieldErrs obj f) []

/-- The generated `__from_json_value` (config.rs lines 993-1040): a
non-object root fails immediately; otherwise every field is extracted, and
the accumulated errors are surfaced through `Error::multiple`. The
constructed struct value itself is type-level and is represented by
`Unit`. -/
def from_json_value (fields : List FieldSpec) (v : Value) : Except Error Unit :=
  match v with
  | Value.obj entries =>
    match Error.multiple (extractErrs entries fields) with
    | some e => .error e
    | none => .ok ()
  | _ => .error (.Extraction "<root>" "object" "expected JSON object at root")

/-! ## Origin tracking and the layered builder
(`crates/procenv/src/file/builder.rs`) -/

/-- First-match association-list lookup, used for the explicit environment
and file-system snapshots. -/
def lookupAssoc {α : Type} (xs : List (String × α)) (k : String) : Option α :=
  match xs with
  | [] => none
  | (k', v) :: rest => if k' = k then some v else lookupAssoc rest k

/-- `Source` from `crates/procenv/src/lib.rs` (lines 861-907); `PathBuf`
payloads are strings. -/
inductive Source where
  | Cli
  | Environment
  | DotenvFile (path : Option String)
  | ConfigFile (path : Option String)
  | Profile (name : String)
  | Default
  | NotSet
  | CustomProvider (name : String)
deriving DecidableEq, Repr

/-- Dotted-path concatenation used when walking a layer's tree. -/
def joinPath (base k : String) : String :=
  if base = "" then k else base ++ "." ++ k

mutual

/-- The leaf paths of a layer's tree under a base path: every non-object
node is a leaf; objects contribute their children's leaves. -/
def leafPathsOf : Value → String → List String
  | Value.obj entries, base => leafPathsEntries entries base
  | _, base => [base]
termination_by v _ => sizeOf v

/-- Leaf paths contributed by an object's entries, in entry order. -/
def leafPathsEntries : List (String × Value) → String → List String
  | [], _ => []
  | (k, v) :: rest, base => leafPathsOf v (joinPath base k) ++ leafPathsEntries rest base
termination_by l _ => sizeOf l

end

/-- Modelled from the spec: `OriginTracker` — re-exported and called under
`src/` (`file/builder.rs`, the generated code of `expand/config.rs`) but
defined in a `file::origin` module that is not under `src/`. Spec §4.6:
`add_source(locator, content, format)` registers a file source (only the
locator is observable through the operations used here),
`track_value(tree, base_path)` walks a just-merged layer's tree and records
a record for every leaf path with the layer's source, and
`get_file_source(path)` returns the file locator recorded for a path. In
`ConfigBuilder::merge` only file layers register sources, so every record
carries the most recently added file's path; later records for the same
path overwrite earlier ones (last-writer-wins). -/
structure OriginTracker where
  currentFile : Option String
  records : List (String × String)
deriving DecidableEq, Repr

/-- `OriginTracker::new()`. -/
def OriginTracker.new : OriginTracker := ⟨none, []⟩

/-- Modelled from the spec: `add_source` registers the file whose layer is
about to be tracked. -/
def OriginTracker.add_source (t : OriginTracker) (path : String) : OriginTracker :=
  { t with currentFile := some path }

/-- Modelled from the spec: `track_value` records one entry per leaf path
of the layer's tree, attributed to the most recently registered file. -/
def OriginTracker.track_value (t : OriginTracker) (tree : Value) (base : String) :
    OriginTracker :=
  match t.currentFile with
  | some f => { t with records := t.records ++ (leafPathsOf tree base).map (fun p => (p, f)) }
  | none => t

/-- Modelled from the spec: `get_file_source` returns the locator of the
last record for the path (later layers overwrite earlier provenance). -/
def OriginTracker.get_file_source (t : OriginTracker) (p : String) : Option String :=
  (lookupAssoc t.records.reverse p)

/-- Modelled from the spec: `FileUtils::parse_file_with_content`
(`file/utils.rs`, not under `src/`) resolved against an explicit snapshot
of the file system holding already-parsed contents (spec §4.3): a missing
`required` file is `NotFound`; a missing optional file is a silent `None`;
a present file yields its parsed tree. -/
def parse_file_with_content (fs : List (String × Value)) (path : String)
    (required : Bool) : Except FileError (Option Value) :=
  match lookupAssoc fs path with
  | some v => .ok (some v)
  | none => if required then .error (.NotFound path) else .ok none

/-- `ConfigBuilder` state (file/builder.rs lines 67-94). -/
structure ConfigBuilder where
  base : Value
  files : List (String × Bool)
  envPrefixOpt : Option String
  envSeparator : String
  origins : OriginTracker
  envMappings : List (String × String)

/-- `ConfigBuilder::new()` (file/builder.rs lines 85-94). -/
def ConfigBuilder.new : ConfigBuilder :=
  ⟨Value.obj [], [], none, "_", OriginTracker.new, []⟩

/-- `ConfigBuilder::defaults_value` (file/builder.rs lines 179-184). -/
def ConfigBuilder.defaults_value (b : ConfigBuilder) (v : Value) : ConfigBuilder :=
  { b with base := v }

/-- `ConfigBuilder::file` (file/builder.rs lines 201-206). -/
def ConfigBuilder.file (b : ConfigBuilder) (path : String) : ConfigBuilder :=
  { b with files := b.files ++ [(path, true)] }

/-- `ConfigBuilder::file_optional` (file/builder.rs lines 222-227). -/
def ConfigBuilder.file_optional (b : ConfigBuilder) (path : String) : ConfigBuilder :=
  { b with files := b.files ++ [(path, false)] }

/-- `ConfigBuilder::env_prefix` (file/builder.rs lines 240-245). -/
def ConfigBuilder.env_prefix_set (b : ConfigBuilder) (p : String) : ConfigBuilder :=
  { b with envPrefixOpt := some p }

/-- `ConfigBuilder::env_mapping` (file/builder.rs lines 286-294). -/
def ConfigBuilder.env_mapping (b : ConfigBuilder) (fieldPath envVar : String) :
    ConfigBuilder :=
  { b with envMappings := b.envMappings ++ [(fieldPath, envVar)] }

/-- The `for (path, required) in self.files` loop of `ConfigBuilder::merge`
(file/builder.rs lines 313-325): each present file registers its source,
tracks its own tree's leaves, and is deep-merged into the accumulated base;
a file-layer failure short-circuits. -/
def mergeFiles (fs : List (String × Value)) (t : OriginTracker) (base : Value) :
    List (String × Bool) → Except FileError (Value × OriginTracker)
  | [] => .ok (base, t)
  | (path, required) :: rest =>
    match parse_file_with_content fs path required with
    | .error e => .error e
    | .ok none => mergeFiles fs t base rest
    | .ok (some fileValue) =>
      let t' := (t.add_source path).track_value fileValue ""
      mergeFiles fs t' (deep_merge base fileValue) rest

/-- `ConfigBuilder::merge` (file/builder.rs lines 311-351): file layers
(with origin tracking), then the prefix/separator environment layer (merged
only when non-empty, with no origin tracking), then the direct
env-mappings layer (insert_nested per set variable, with no origin
tracking). The process environment is an explicit snapshot list. -/
def ConfigBuilder.merge (b : ConfigBuilder) (fs : List (String × Value))
    (env : List (String × String)) : Except FileError (Value × OriginTracker) :=
  match mergeFiles fs b.origins b.base b.files with
  | .error e => .error e
  | .ok (base1, origins) =>
    let base2 :=
      match b.envPrefixOpt with
      | some p =>
        let envValue := env_to_value p b.envSeparator env
        match envValue with
        | Value.obj m => if m.isEmpty then base1 else deep_merge base1 (Value.obj m)
        | _ => base1
      | none => base1
    let base3 :=
      b.envMappings.foldl
        (fun acc mapping =>
          match lookupAssoc env mapping.2 with
          | some raw =>
            let typed := coerce_value raw
            let parts := splitOnSep "." mapping.1
            match acc with
            | Value.obj m => Value.obj (insert_nested m parts typed)
            | other => other
          | none => acc)
        base2
    .ok (base3, origins)

/-! ## The derive-generated `from_config` pipeline
(`crates/procenv_macro/src/expand/config.rs`) -/

/-- `Error::invalid_profile` (lib.rs lines 808-820). -/
def Error.invalid_profile (profile var : String) (validProfiles : List String) : Error :=
  .InvalidProfile profile var validProfiles
    ("valid profiles are: " ++ String.intercalate ", " validProfiles)

/-- The per-field schema the derive macro reads from `#[env(...)]` and
`#[profile(...)]` attributes, restricted to regular (non-flatten,
non-optional, `FromStr`) fields: struct field name, environment variable
name, optional compile-time default literal, and profile-override literals
in declaration order. -/
structure MacroField where
  name : String
  envVar : String
  defaultLit : Option String
  profileValues : List (String × String)

/-- The `#[env_config(...)]` attribute arguments relevant to the generated
`from_config` (no dotenv, no flatten fields): declared files in order,
optional env prefix, optional profile selector variable and optional
profile allow-list. -/
structure MacroConfig where
  fields : List MacroField
  files : List (String × Bool)
  envPrefixAttr : Option String
  profileEnv : Option String
  profiles : Option (List String)

/-- The generated profile setup: `std::env::var(#profile_env).ok()` against
the environment snapshot. -/
def selectProfile (cfg : MacroConfig) (env : List (String × String)) : Option String :=
  cfg.profileEnv.bind (lookupAssoc env)

/-- The generated profile validation (config.rs lines 733-751): a selected
profile not contained in a declared allow-list aborts the whole resolution
with `Error::invalid_profile`. -/
def validateProfile (cfg : MacroConfig) (profile : Option String) : Option Error :=
  match cfg.profiles, profile with
  | some allowed, some p =>
    if p ∈ allowed then none
    else some (Error.invalid_profile p (cfg.profileEnv.getD "") allowed)
  | _, _ => none

/-- The generated `__defaults` map (config.rs lines 158-216 and 760-810):
macro default literals are inserted first in field order, then
profile-override literals for the selected profile are inserted on top
(`serde_json::Map::insert` overwrites), each coerced by
`FileUtils::coerce_value`. -/
def macroDefaults (fields : List MacroField) (profile : Option String) :
    List (String × Value) :=
  let withDefaults :=
    fields.foldl
      (fun m f =>
        match f.defaultLit with
        | some d => Value.insertSorted f.name (coerce_value d) m
        | none => m)
      []
  fields.foldl
    (fun m f =>
      match profile with
      | some p =>
        match lookupAssoc f.profileValues p with
        | some v => Value.insertSorted f.name (coerce_value v) m
        | none => m
      | none => m)
    withDefaults

/-- The generated `from_config` builder pipeline
(`generate_from_config_impl`, config.rs lines 384-409), up to and including
`builder.into_value()` (which is `merge`): profile selection and
validation, defaults (when any default, profile or flatten applies),
declared files, the optional env prefix, and one direct env mapping per
field, resolved against explicit file-system and environment snapshots.
Returns the merged tree, the origin tracker and the selected profile. -/
def from_config_value (cfg : MacroConfig) (fs : List (String × Value))
    (env : List (String × String)) :
    Except Error (Value × OriginTracker × Option String) :=
  let profile := selectProfile cfg env
  match validateProfile cfg profile with
  | some e => .error e
  | none =>
    let b := ConfigBuilder.new
    let b :=
      if cfg.fields.any (fun f => f.defaultLit.isSome) ∨ cfg.profileEnv.isSome then
        b.defaults_value (Value.obj (macroDefaults cfg.fields profile))
      else b
    let b := cfg.files.foldl
      (fun b pf => if pf.2 then b.file pf.1 else b.file_optional pf.1) b
    let b :=
      match cfg.envPrefixAttr with
      | some p => b.env_prefix_set p
      | none => b
    let b := cfg.fields.foldl (fun b f => b.env_mapping f.name f.envVar) b
    match b.merge fs env with
    | .error fe => .error (.File fe)
    | .ok (v, origins) => .ok (v, origins, profile)

/-- The generated per-field source attribution of
`from_config_with_sources` (config.rs lines 339-381), for a regular field
with no dotenv loading (`__dotenv_loaded = false`): a set environment
variable attributes to `Environment`; otherwise a tracked file origin to
`ConfigFile`; otherwise, when a profile is selected and the field declares
profile overrides, to `Profile`; otherwise to `Default` when the field has
a default literal, and `NotSet` when it has none. -/
def fieldSource (profile : Option String) (origins : OriginTracker)
    (env : List (String × String)) (f : MacroField) : Source :=
  if (lookupAssoc env f.envVar).isSome then Source.Environment
  else
    match origins.get_file_source f.name with
    | some filePath => Source.ConfigFile (some filePath)
    | none =>
      match profile with
      | some p =>
        if !f.profileValues.isEmpty then Source.Profile p
        else if f.defaultLit.isSome then Source.Default
        else Source.NotSet
      | none =>
        if f.defaultLit.isSome then Source.Default
        else Source.NotSet

/-- A required `FromStr` field (no default, not optional) whose typed parse
always succeeds — the shape generated for a plain `#[env(var = "...")]`
field; used to instantiate concrete extraction runs. -/
def requiredField (n : String) : FieldSpec :=
  ⟨n, false, none, fun _ => none⟩

/-- Characters that Rust's `Debug` string formatting passes through
unescaped: not the quote, not the backslash, and printable ASCII. -/
def plainChar (c : Char) : Prop :=
  c ≠ '"' ∧ c ≠ '\\' ∧ 32 ≤ c.toNat ∧ c.toNat ≠ 127

/-- Segment-wise path lookup in the canonical tree (spec §4.1
`get_path`), used to state where the mapper and the merge place leaves. -/
def getPath : Value → List String → Option Value
  | v, [] => some v
  | Value.obj entries, p :: ps =>
    match Value.lookup entries p with
    | some v => getPath v ps
    | none => none
  | _, _ :: _ => none

mutual

/-- Two layers touch disjoint leaf paths: both are objects and wherever
their keys collide, both values are again objects that are recursively
disjoint (so no leaf path of one is a prefix of, or equal to, a leaf path
of the other). -/
def disjointB : Value → Value → Bool
  | Value.obj as, Value.obj bs => disjointEntriesB as bs
  | _, _ => false
termination_by a _ => sizeOf a

/-- Disjointness of an entry list against another map. -/
def disjointEntriesB : List (String × Value) → List (String × Value) → Bool
  | [], _ => true
  | (k, v) :: rest, bs =>
    (match Value.lookup bs k with
     | some w => disjointB v w
     | none => true) && disjointEntriesB rest bs
termination_by l _ => sizeOf l

end

mutual

/-- The `BTreeMap` representation invariant of the embedded trees: every
object's entry list is strictly sorted by key (hence keys are unique), at
every level. All maps produced by the parsers, the mapper and the merge
satisfy it. -/
def wfB : Value → Bool
  | Value.obj es => wfEntriesB es
  | _ => true
termination_by v => sizeOf v

/-- Strict key-sortedness of an entry list, with well-formed values. -/
def wfEntriesB : List (String × Value) → Bool
  | [] => true
  | (k, v) :: rest =>
    wfB v && wfEntriesB rest &&
      (match rest with
       | [] => true
       | (k2, _) :: _ => decide (k.data < k2.data))
termination_by l => sizeOf l

end

/-! ## Helper lemmas about the sorted-map operations -/

theorem lookup_eq_none_of_not_mem (m : List (String × Value)) (k : String)
    (h : k ∉ m.map Prod.fst) : Value.lookup m k = none := by
  induction m with
  | nil => rfl
  | cons hd tl ih =>
    simp only [List.map_cons, List.mem_cons] at h
    push_neg at h
    simp only [Value.lookup, if_neg (Ne.symm h.1)]
    exact ih h.2

theorem lookup_insertSorted (k : String) (v : Value) (m : List (String × Value))
    (k' : String) :
    Value.lookup (Value.insertSorted k v m) k'
      = if k = k' then some v else Value.lookup m k' := by
  induction m with
  | nil => simp only [Value.insertSorted, Value.lookup]
  | cons hd tl ih =>
    obtain ⟨k₀, v₀⟩ := hd
    simp only [Value.insertSorted]
    by_cases hlt : k.data < k₀.data
    · rw [if_pos hlt]
      simp only [Value.lookup]
    · rw [if_neg hlt]
      by_cases he : k = k₀
      · rw [if_pos he]
        by_cases h' : k = k'
        · simp only [Value.lookup, if_pos h']
        · have h0 : ¬ k₀ = k' := by rw [← he]; exact h'
          simp only [Value.lookup, if_neg h', if_neg h0]
      · rw [if_neg he]
        simp only [Value.lookup, ih]
        by_cases h0 : k₀ = k'
        · subst h0
          rw [if_pos rfl, if_pos rfl, if_neg he]
        · rw [if_neg h0, if_neg h0]

theorem lookup_mergeKey (b : List (String × Value)) (k : String) (v : Value)
    (k' : String) :
    Value.lookup (mergeKey b k v) k'
      = if k = k' then
          some (match Value.lookup b k with
                | some bv => deep_merge bv v
                | none => v)
        else Value.lookup b k' := by
  unfold mergeKey
  cases hb : Value.lookup b k with
  | some bv => simp [lookup_insertSorted]
  | none => simp [lookup_insertSorted]

theorem lookup_mergeEntries (o : List (String × Value)) (b : List (String × Value))
    (k' : String) (hnd : (o.map Prod.fst).Nodup) :
    Value.lookup (mergeEntries b o) k'
      = match Value.lookup o k' with
        | none => Value.lookup b k'
        | some vo =>
          match Value.lookup b k' with
          | none => some vo
          | some vb => some (deep_merge vb vo) := by
  induction o generalizing b with
  | nil => simp [mergeEntries, Value.lookup]
  | cons hd tl ih =>
    obtain ⟨k, v⟩ := hd
    simp only [List.map_cons, List.nodup_cons] at hnd
    obtain ⟨hk, hnd'⟩ := hnd
    have hlk : Value.lookup tl k = none := lookup_eq_none_of_not_mem tl k hk
    simp only [mergeEntries]
    rw [ih (mergeKey b k v) hnd']
    by_cases he : k = k'
    · subst he
      simp only [Value.lookup, if_pos rfl, hlk, lookup_mergeKey]
      cases Value.lookup b k <;> simp
    · simp only [Value.lookup, if_neg he]
      rw [lookup_mergeKey, if_neg he]

/-! ## Claim theorems -/

/-- C1: `deep_merge` merges key-by-key when both sides are maps (overlay
keys not in the base are inserted; keys present in both recurse), and for
any other type pairing — including list vs list — the overlay replaces the
base wholesale, so arrays are never element-wise merged: in particular
`{"a":[1,2,3]}` merged with `{"a":[4,5]}` yields `{"a":[4,5]}`. -/
theorem deep_merge_maps_merge_others_replace :
    (∀ b o, deep_merge (Value.obj b) (Value.obj o) = Value.obj (mergeEntries b o)) ∧
    (∀ b o k, (o.map Prod.fst).Nodup →
      Value.lookup (mergeEntries b o) k
        = match Value.lookup o k with
          | none => Value.lookup b k
          | some vo =>
            match Value.lookup b k with
            | none => some vo
            | some vb => some (deep_merge vb vo)) ∧
    (∀ base overlay, ¬(base.isObj = true ∧ overlay.isObj = true) →
      deep_merge base overlay = overlay) ∧
    deep_merge (Value.obj [("a", Value.arr [Value.int 1, Value.int 2, Value.int 3])])
        (Value.obj [("a", Value.arr [Value.int 4, Value.int 5])])
      = Value.obj [("a", Value.arr [Value.int 4, Value.int 5])] := by
  refine ⟨fun b o => by simp [deep_merge], fun b o k h => lookup_mergeEntries o b k h,
    fun base overlay h => ?_, ?_⟩
  · cases base <;> cases overlay <;> simp_all [deep_merge, Value.isObj]
  · simp +decide [deep_merge, mergeEntries, mergeKey, Value.lookup, Value.insertSorted]

/-- Witness for C1 at concrete inputs. -/
theorem deep_merge_maps_merge_others_replace_witness :
    Value.lookup (mergeEntries [] [("x", Value.null)]) "x" = some Value.null ∧
    deep_merge (Value.int 1) (Value.int 2) = Value.int 2 := by
  constructor
  · have h := deep_merge_maps_merge_others_replace.2.1 [] [("x", Value.null)] "x" (by simp)
    simpa [Value.lookup] using h
  · exact deep_merge_maps_merge_others_replace.2.2.1 (Value.int 1) (Value.int 2)
      (by simp [Value.isObj])

/-- C2: `coerce_value` is total and applies the deterministic precedence:
case-insensitive `"true"`/`"false"` yield booleans; otherwise a successful
signed 64-bit integer parse yields an integer; otherwise, only when the
string contains a decimal point and parses as a float, a float; otherwise
the unchanged string — with the spec's five concrete examples. -/
theorem coerce_value_precedence (s : String) :
    (eqIgnoreAsciiCase s "true" = true → coerce_value s = Value.bool true) ∧
    (eqIgnoreAsciiCase s "true" = false → eqIgnoreAsciiCase s "false" = true →
      coerce_value s = Value.bool false) ∧
    (∀ i, eqIgnoreAsciiCase s "true" = false → eqIgnoreAsciiCase s "false" = false →
      parseI64 s = some i → coerce_value s = Value.int i) ∧
    (∀ q, eqIgnoreAsciiCase s "true" = false → eqIgnoreAsciiCase s "false" = false →
      parseI64 s = none → s.data.contains '.' = true → parseF64 s = some q →
      coerce_value s = Value.float q) ∧
    (eqIgnoreAsciiCase s "true" = false → eqIgnoreAsciiCase s "false" = false →
      parseI64 s = none → (s.data.contains '.' = false ∨ parseF64 s = none) →
      coerce_value s = Value.str s) ∧
    ((∃ b, coerce_value s = Value.bool b) ∨ (∃ i, coerce_value s = Value.int i) ∨
      (∃ q, coerce_value s = Value.float q) ∨ coerce_value s = Value.str s) ∧
    (coerce_value "true" = Value.bool true ∧ coerce_value "TRUE" = Value.bool true ∧
      coerce_value "42" = Value.int 42 ∧ coerce_value "3.14" = Value.float (157 / 50) ∧
      coerce_value "hello world" = Value.str "hello world") := by
  refine ⟨fun h1 => by simp [coerce_value, h1],
    fun h1 h2 => by simp [coerce_value, h1, h2],
    fun i h1 h2 h3 => by simp [coerce_value, h1, h2, h3],
    fun q h1 h2 h3 h4 h5 => by
      have h4' : '.' ∈ s.data := by simpa using h4
      simp [coerce_value, h1, h2, h3, h4', h5],
    fun h1 h2 h3 h4 => ?_, ?_,
    rfl, rfl, rfl, ?_, rfl⟩
  · rcases h4 with h4 | h4
    · have h4' : '.' ∉ s.data := by simpa using h4
      simp [coerce_value, h1, h2, h3, h4']
    · by_cases h5 : s.data.contains '.' = true
      · have h5' : '.' ∈ s.data := by simpa using h5
        simp [coerce_value, h1, h2, h3, h4, h5']
      · simp only [Bool.not_eq_true] at h5
        have h5' : '.' ∉ s.data := by simpa using h5
        simp [coerce_value, h1, h2, h3, h5']
  · by_cases h1 : eqIgnoreAsciiCase s "true"
    · exact Or.inl ⟨true, by simp [coerce_value, h1]⟩
    · by_cases h2 : eqIgnoreAsciiCase s "false"
      · exact Or.inl ⟨false, by simp [coerce_value, h1, h2]⟩
      · cases h3 : parseI64 s with
        | some i => exact Or.inr (Or.inl ⟨i, by simp [coerce_value, h1, h2, h3]⟩)
        | none =>
          by_cases h4 : s.data.contains '.' = true
          · have h4' : '.' ∈ s.data := by simpa using h4
            cases h5 : parseF64 s with
            | some q =>
              exact Or.inr (Or.inr (Or.inl ⟨q, by simp [coerce_value, h1, h2, h3, h4', h5]⟩))
            | none =>
              refine Or.inr (Or.inr (Or.inr ?_))
              simp [coerce_value, h1, h2, h3, h4', h5]
          · refine Or.inr (Or.inr (Or.inr ?_))
            simp only [Bool.not_eq_true] at h4
            have h4' : '.' ∉ s.data := by simpa using h4
            simp [coerce_value, h1, h2, h3, h4']
  · simp +decide [coerce_value, eqIgnoreAsciiCase, asciiLowerChar, parseI64, parseF64,
      parseUnsignedDec, parseExponent, digitsToNat]
    norm_num

/-- Witness for C2 at `"42"`. -/
theorem coerce_value_precedence_witness : coerce_value "42" = Value.int 42 :=
  (coerce_value_precedence "42").2.2.1 42 rfl rfl rfl

/-- C8: during nested insertion (the environment-variable layer and direct
env mappings both go through `insert_nested`), an existing non-map value at
an intermediate path segment makes the new nested insert be silently
dropped at that segment — no error is raised, the existing value is kept
and the whole map is returned unchanged. -/
theorem insert_nested_silent_drop (m : List (String × Value)) (k : String)
    (w : Value) (p2 : String) (ps : List String) (v : Value)
    (hlook : Value.lookup m k = some w) (hobj : w.isObj = false) :
    insert_nested m (k :: p2 :: ps) v = m := by
  cases w <;> simp_all [insert_nested, Value.isObj]

/-- Witness for C8: inserting below `a` when `a` holds the scalar `1`
leaves the map untouched. -/
theorem insert_nested_silent_drop_witness :
    insert_nested [("a", Value.int 1)] ["a", "b"] (Value.int 2)
      = [("a", Value.int 1)] :=
  insert_nested_silent_drop [("a", Value.int 1)] "a" (Value.int 1) "b" [] (Value.int 2)
    (by simp [Value.lookup]) rfl

theorem extractErrs_acc (os : List (String × Value)) (fs : List FieldSpec)
    (acc : List Error) :
    fs.foldl (fun a f => a ++ fieldErrs os f) acc = acc ++ extractErrs os fs := by
  induction fs generalizing acc with
  | nil => simp [extractErrs]
  | cons f fs ih =>
    have h1 := ih (acc ++ fieldErrs os f)
    have h2 := ih (fieldErrs os f)
    simp only [List.foldl_cons, extractErrs] at *
    rw [h1]
    simp only [List.nil_append]
    rw [h2, List.append_assoc]

/-- C3: one field's failure never stops evaluation of sibling fields (the
error lists of independent field groups concatenate in declaration order),
and at the end of a pass zero accumulated errors yield success, exactly one
error is surfaced directly (not wrapped), and two or more are wrapped as a
single `Multiple` preserving order; two independently missing required
fields produce one `Multiple` holding exactly their two `Missing` entries
in declaration order, while a single missing field comes back unwrapped. -/
theorem error_accumulation :
    (∀ (os : List (String × Value)) (fs₁ fs₂ : List FieldSpec),
      extractErrs os (fs₁ ++ fs₂) = extractErrs os fs₁ ++ extractErrs os fs₂) ∧
    (∀ (os : List (String × Value)) (fs : List FieldSpec),
      extractErrs os fs = [] → from_json_value fs (Value.obj os) = .ok ()) ∧
    (∀ (os : List (String × Value)) (fs : List FieldSpec) (e : Error),
      extractErrs os fs = [e] → from_json_value fs (Value.obj os) = .error e) ∧
    (∀ (os : List (String × Value)) (fs : List FieldSpec) (e₁ e₂ : Error)
      (rest : List Error),
      extractErrs os fs = e₁ :: e₂ :: rest →
      from_json_value fs (Value.obj os) = .error (.Multiple (e₁ :: e₂ :: rest))) ∧
    from_json_value [requiredField "a", requiredField "b"] (Value.obj [])
      = .error (.Multiple [Error.missing "a", Error.missing "b"]) ∧
    from_json_value [requiredField "a"] (Value.obj [])
      = .error (Error.missing "a") := by
  refine ⟨fun os fs₁ fs₂ => ?_, fun os fs h => ?_, fun os fs e h => ?_,
    fun os fs e₁ e₂ rest h => ?_, rfl, rfl⟩
  · simp only [extractErrs, List.foldl_append]
    rw [extractErrs_acc os fs₂ (List.foldl (fun a f => a ++ fieldErrs os f) [] fs₁)]
    rfl
  · simp [from_json_value, h, Error.multiple]
  · simp [from_json_value, h, Error.multiple]
  · simp [from_json_value, h, Error.multiple]

/-- Witness for C3: a failing and a succeeding field side by side — the
first field's missing error does not suppress the second group's. -/
theorem error_accumulation_witness :
    extractErrs [] ([requiredField "a"] ++ [requiredField "b"])
      = extractErrs [] [requiredField "a"] ++ extractErrs [] [requiredField "b"] ∧
    from_json_value [requiredField "a"] (Value.obj [("a", Value.int 1)]) = .ok () := by
  constructor
  · exact error_accumulation.1 [] [requiredField "a"] [requiredField "b"]
  · exact error_accumulation.2.1 [("a", Value.int 1)] [requiredField "a"] rfl

theorem escapeDebugChar_plain (c : Char) (h : plainChar c) :
    escapeDebugChar c = [c] := by
  obtain ⟨h1, h2, h3, h4⟩ := h
  have hn : c ≠ '\n' := by
    intro he; subst he; simp at h3
  have hr : c ≠ '\r' := by
    intro he; subst he; simp at h3
  have ht : c ≠ '\t' := by
    intro he; subst he; simp at h3
  have h0 : c.toNat ≠ 0 := by omega
  simp only [escapeDebugChar, if_neg h1, if_neg h2, if_neg hn, if_neg hr, if_neg ht,
    if_neg h0]
  rw [if_neg]
  push_neg
  exact ⟨by omega, h4⟩

theorem foldr_escape_plain (cs : List Char) (h : ∀ c ∈ cs, plainChar c) :
    cs.foldr (fun c acc => escapeDebugChar c ++ acc) [] = cs := by
  induction cs with
  | nil => rfl
  | cons c cs ih =>
    simp only [List.foldr_cons]
    rw [escapeDebugChar_plain c (h c (by simp)),
      ih (fun d hd => h d (by simp [hd]))]
    rfl

theorem rustDebugStr_plain (s : String) (h : ∀ c ∈ s.data, plainChar c) :
    rustDebugStr s = "\"" ++ s ++ "\"" := by
  unfold rustDebugStr
  rw [foldr_escape_plain s.data h]

/-- C6: for a secret-tagged `Parse` error neither the `Display` nor the
`Debug` output contains the raw value: both are exact strings built only
from the variable name, expected type, help and source, with the fixed
marker `<redacted>` in the value's place (hence independent of the raw
value, as the `value'` conjuncts state), while the variable name and
expected type remain visible in them; for a non-secret field the
`{:?}`-quoted raw value appears in the message — verbatim when it needs no
escaping. -/
theorem secret_redaction (var value value' expectedType help src : String)
    (hplain : ∀ c ∈ value.data, plainChar c) :
    displayError (.Parse var value true expectedType help src)
      = "failed to parse " ++ var ++ ": expected " ++ expectedType ++ ", got <redacted>" ∧
    debugError (.Parse var value true expectedType help src)
      = "Parse \x7b var: " ++ rustDebugStr var ++ ", value: " ++ "\"<redacted>\""
        ++ ", secret: " ++ "true" ++ ", expected_type: " ++ rustDebugStr expectedType
        ++ ", help: " ++ rustDebugStr help ++ ", source: " ++ src ++ " \x7d" ∧
    displayError (.Parse var value true expectedType help src)
      = displayError (.Parse var value' true expectedType help src) ∧
    debugError (.Parse var value true expectedType help src)
      = debugError (.Parse var value' true expectedType help src) ∧
    displayError (.Parse var value false expectedType help src)
      = "failed to parse " ++ var ++ ": expected " ++ expectedType ++ ", got "
        ++ ("\"" ++ value ++ "\"") ∧
    debugError (.Parse var value false expectedType help src)
      = "Parse \x7b var: " ++ rustDebugStr var ++ ", value: " ++ ("\"" ++ value ++ "\"")
        ++ ", secret: " ++ "false" ++ ", expected_type: " ++ rustDebugStr expectedType
        ++ ", help: " ++ rustDebugStr help ++ ", source: " ++ src ++ " \x7d" := by
  have hv := rustDebugStr_plain value hplain
  refine ⟨rfl, ?_, rfl, ?_, ?_, ?_⟩
  · simp [debugError, rustDebugBool,
      show rustDebugStr "<redacted>" = "\"<redacted>\"" from rfl]
  · simp [debugError]
  · simp only [displayError, if_neg (by simp : ¬ (false = true)), hv]
  · simp only [debugError, rustDebugBool, if_neg (by simp : ¬ (false = true)), hv]

/-- Witness for C6 at a concrete secret parse error. -/
theorem secret_redaction_witness :
    displayError (.Parse "API_KEY" "hunter2" true "u16" "expected a valid u16" "ParseIntError")
      = "failed to parse " ++ "API_KEY" ++ ": expected " ++ "u16" ++ ", got <redacted>" :=
  (secret_redaction "API_KEY" "hunter2" "other" "u16" "expected a valid u16" "ParseIntError"
    (by intro c hc; fin_cases hc <;> exact ⟨by decide, by decide, by decide, by decide⟩)).1

theorem getPath_insert_nested_fresh (parts : List String) (v : Value)
    (h : parts ≠ []) :
    getPath (Value.obj (insert_nested [] parts v)) parts = some v := by
  induction parts with
  | nil => cases h rfl
  | cons p rest ih =>
    cases rest with
    | nil => simp [insert_nested, Value.insertSorted, getPath, Value.lookup]
    | cons q ps =>
      have ih' := ih (by simp)
      simpa [insert_nested, Value.insertSorted, getPath, Value.lookup] using ih'

/-- C4: `env_to_value` builds a nested map from the environment snapshot:
variables not starting with the prefix are skipped; a variable starting
with the prefix is stripped, lowercased, split on the separator, its value
coerced, and inserted at the resulting nested path (with intermediate maps
created as needed, so that the value is retrievable at that path); with
prefix `"APP_"` and separator `"_"`, `APP_DATABASE_HOST=localhost` and
`APP_DATABASE_PORT=5432` produce
`{"database":{"host":"localhost","port":5432}}`. -/
theorem env_to_value_algorithm :
    (∀ (p sep k val : String) (vars : List (String × String)),
      stripPrefixChars p.data k.data = none →
      env_to_value p sep ((k, val) :: vars) = env_to_value p sep vars) ∧
    (∀ (p sep k val : String) (vars : List (String × String))
      (rest : List Char),
      stripPrefixChars p.data k.data = some rest →
      env_to_value p sep ((k, val) :: vars)
        = Value.obj (vars.foldl (envStep p sep)
            (insert_nested []
              (splitOnSep sep (String.mk (rest.map asciiLowerChar)))
              (coerce_value val)))) ∧
    (∀ (parts : List String) (v : Value), parts ≠ [] →
      getPath (Value.obj (insert_nested [] parts v)) parts = some v) ∧
    env_to_value "APP_" "_"
        [("APP_DATABASE_HOST", "localhost"), ("APP_DATABASE_PORT", "5432")]
      = Value.obj [("database",
          Value.obj [("host", Value.str "localhost"), ("port", Value.int 5432)])] := by
  refine ⟨fun p sep k val vars h => ?_, fun p sep k val vars rest h => ?_,
    getPath_insert_nested_fresh, rfl⟩
  · simp [env_to_value, envStep, h]
  · simp [env_to_value, envStep, h, splitOnSep]

/-- Witness for C4: the skip rule applied to a non-prefixed variable, and
fresh-path retrieval at a two-segment path. -/
theorem env_to_value_algorithm_witness :
    env_to_value "APP_" "_" [("OTHER", "x")] = env_to_value "APP_" "_" [] ∧
    getPath (Value.obj (insert_nested [] ["database", "host"] (Value.str "h")))
      ["database", "host"] = some (Value.str "h") := by
  constructor
  · exact env_to_value_algorithm.1 "APP_" "_" "OTHER" "x" [] rfl
  · exact env_to_value_algorithm.2.2.1 ["database", "host"] (Value.str "h") (by simp)

theorem charUtf8Size_pos (c : Char) : 1 ≤ charUtf8Size c := by
  unfold charUtf8Size
  by_cases h1 : c.toNat < 128 <;> by_cases h2 : c.toNat < 2048 <;>
    by_cases h3 : c.toNat < 65536 <;> simp [h1, h2, h3]

theorem charUtf8Size_of_ascii (c : Char) (h : c.toNat < 128) : charUtf8Size c = 1 := by
  simp [charUtf8Size, h]

theorem utf8Len_cons (c : Char) (cs : List Char) :
    utf8Len (c :: cs) = charUtf8Size c + utf8Len cs := by
  simp [utf8Len]

theorem byteSliceFrom_utf8Len (cs : List Char) (i : Nat) (rem : List Char)
    (h : byteSliceFrom cs i = some rem) : i + utf8Len rem = utf8Len cs := by
  induction cs generalizing i rem with
  | nil =>
    cases i with
    | zero => simp [byteSliceFrom] at h; subst h; omega
    | succ j => simp [byteSliceFrom] at h
  | cons c cs ih =>
    cases i with
    | zero => simp [byteSliceFrom] at h; subst h; omega
    | succ j =>
      simp only [byteSliceFrom] at h
      split at h
      · have hih := ih (j + 1 - charUtf8Size c) rem h
        have hsz : charUtf8Size c ≤ j + 1 := by assumption
        rw [utf8Len_cons]
        omega
      · cases h

theorem byteSliceFrom_ascii (cs : List Char) (i : Nat)
    (hall : ∀ c ∈ cs, c.toNat < 128) (hle : i ≤ utf8Len cs) :
    ∃ rem, byteSliceFrom cs i = some rem := by
  induction cs generalizing i with
  | nil =>
    cases i with
    | zero => exact ⟨[], rfl⟩
    | succ j => simp [utf8Len] at hle
  | cons c cs ih =>
    cases i with
    | zero => exact ⟨c :: cs, rfl⟩
    | succ j =>
      have h1 : charUtf8Size c = 1 := charUtf8Size_of_ascii c (hall c (by simp))
      have hrest : j ≤ utf8Len cs := by
        rw [utf8Len_cons, h1] at hle
        omega
      obtain ⟨rem, hrem⟩ := ih j (fun d hd => hall d (by simp [hd])) hrest
      refine ⟨rem, ?_⟩
      simp only [byteSliceFrom, h1]
      simpa using hrem

theorem findDelim_lt (rem : List Char) (i : Nat) (h : findDelim rem = some i) :
    i < utf8Len rem := by
  induction rem generalizing i with
  | nil => simp [findDelim] at h
  | cons c cs ih =>
    simp only [findDelim] at h
    split at h
    · cases h
      rw [utf8Len_cons]
      have := charUtf8Size_pos c
      omega
    · rw [Option.map_eq_some'] at h
      obtain ⟨j, hj, hji⟩ := h
      have := ih j hj
      rw [utf8Len_cons]
      omega

/-- C10 counterexample: the claim's "never panics for any source content,
line, and column — including multi-byte UTF-8 content" fails. For the
one-character content `"é"` (two UTF-8 bytes), `line_col_to_offset` at line
1, column 2 yields byte offset 1, which is not a character boundary, and
`offset_to_span 1 "é"` panics (modelled as `none`). Moreover, even for
ASCII content the span need not lie within the content: on `"a"` (one
byte), offset 1 produces the span `(1, 1)`, which starts at the content's
end. -/
theorem span_construction_counterexample :
    line_col_to_offset "é" 1 2 = 1 ∧
    offset_to_span 1 "é" = none ∧
    offset_to_span 1 "a" = some (SourceSpan.mk 1 1) ∧
    utf8Len "a".data < 1 + 1 :=
  ⟨rfl, rfl, rfl, by decide⟩

/-- C10 amended: `line_col_to_offset` is total; `offset_to_span` produces a
span whenever the clamped offset falls on a character boundary of the
content — in particular always for ASCII content, for any line and column —
and the produced span starts at the given offset and has length at least 1
(clamped to the next token delimiter or 20 bytes); when the offset
additionally lies strictly inside the content, the span lies entirely
within the content. For an offset inside a multi-byte character the span
computation panics, and no located error is produced. -/
theorem span_construction_amended (content : String) (offset line col : Nat) :
    (∀ rem, byteSliceFrom content.data (min offset (utf8Len content.data)) = some rem →
      ∃ sp, offset_to_span offset content = some sp ∧ sp.start = offset ∧ 1 ≤ sp.len) ∧
    (offset < utf8Len content.data →
      ∀ rem, byteSliceFrom content.data (min offset (utf8Len content.data)) = some rem →
      ∃ sp, offset_to_span offset content = some sp ∧ sp.start = offset ∧
        1 ≤ sp.len ∧ offset + sp.len ≤ utf8Len content.data) ∧
    ((∀ c ∈ content.data, c.toNat < 128) →
      ∃ sp, offset_to_span (line_col_to_offset content line col) content = some sp ∧
        1 ≤ sp.len) := by
  have hspan : ∀ (off : Nat) (rem : List Char),
      byteSliceFrom content.data (min off (utf8Len content.data)) = some rem →
      offset_to_span off content
        = some (SourceSpan.mk off (max ((findDelim rem).getD (min (utf8Len rem) 20)) 1)) := by
    intro off rem hrem
    unfold offset_to_span
    rw [hrem]
    rfl
  refine ⟨fun rem hrem => ?_, fun hlt rem hrem => ?_, fun hascii => ?_⟩
  · exact ⟨_, hspan offset rem hrem, rfl, le_max_right _ 1⟩
  · have hlen := byteSliceFrom_utf8Len content.data _ rem hrem
    have hmin : min offset (utf8Len content.data) = offset := by omega
    rw [hmin] at hlen
    have hpos : 1 ≤ utf8Len rem := by omega
    refine ⟨_, hspan offset rem hrem, rfl, le_max_right _ 1, ?_⟩
    show offset + max ((findDelim rem).getD (min (utf8Len rem) 20)) 1 ≤ _
    cases hfd : findDelim rem with
    | some i =>
      have hi := findDelim_lt rem i hfd
      simp only [hfd, Option.getD_some]
      omega
    | none =>
      simp only [hfd, Option.getD_none]
      omega
  · obtain ⟨rem, hrem⟩ := byteSliceFrom_ascii content.data
      (min (line_col_to_offset content line col) (utf8Len content.data)) hascii
      (by omega)
    exact ⟨_, hspan (line_col_to_offset content line col) rem hrem, le_max_right _ 1⟩

/-- Witness for C10 amended, at ASCII content `"ab"`, offset 1. -/
theorem span_construction_amended_witness :
    ∃ sp, offset_to_span 1 "ab" = some sp ∧ sp.start = 1 ∧
      1 ≤ sp.len ∧ 1 + sp.len ≤ utf8Len "ab".data :=
  (span_construction_amended "ab" 1 1 1).2.1 (by decide) "b".data rfl

/-! ## Sortedness, well-formedness and disjointness lemmas for the merge -/

theorem lookup_mem (es : List (String × Value)) (k : String) (v : Value)
    (h : Value.lookup es k = some v) : (k, v) ∈ es := by
  induction es with
  | nil => simp [Value.lookup] at h
  | cons hd tl ih =>
    obtain ⟨k0, v0⟩ := hd
    simp only [Value.lookup] at h
    by_cases he : k0 = k
    · subst he
      rw [if_pos rfl] at h
      cases h
      exact List.mem_cons_self _ _
    · rw [if_neg he] at h
      exact List.mem_cons_of_mem _ (ih h)

theorem sizeOf_lookup_lt (es : List (String × Value)) (k : String) (v : Value)
    (h : Value.lookup es k = some v) : sizeOf v < sizeOf (Value.obj es) := by
  have hm := lookup_mem es k v h
  have h1 : sizeOf (k, v) < sizeOf es := List.sizeOf_lt_of_mem hm
  have h2 : sizeOf v < sizeOf (k, v) := by
    simp only [Prod.mk.sizeOf_spec]
    omega
  have h3 : sizeOf (Value.obj es) = 1 + sizeOf es := by simp
  omega

theorem wfEntriesB_head (k : String) (v : Value) (rest : List (String × Value))
    (h : wfEntriesB ((k, v) :: rest) = true) :
    wfB v = true ∧ wfEntriesB rest = true := by
  rw [wfEntriesB.eq_def] at h
  simp only [Bool.and_eq_true] at h
  exact ⟨h.1.1, h.1.2⟩

theorem wf_pairwise (es : List (String × Value)) (h : wfEntriesB es = true) :
    es.Pairwise (fun p q => p.1.data < q.1.data) := by
  induction es with
  | nil => exact List.Pairwise.nil
  | cons hd tl ih =>
    obtain ⟨k, v⟩ := hd
    have htl := (wfEntriesB_head k v tl h).2
    have hp := ih htl
    refine List.Pairwise.cons ?_ hp
    intro q hq
    cases tl with
    | nil => simp at hq
    | cons hd2 tl2 =>
      obtain ⟨k2, v2⟩ := hd2
      have hlt : k.data < k2.data := by
        rw [wfEntriesB.eq_def] at h
        simp only [Bool.and_eq_true, decide_eq_true_eq] at h
        exact h.2
      rcases List.mem_cons.mp hq with hq | hq
      · subst hq
        exact hlt
      · have := (List.pairwise_cons.mp hp).1 q hq
        exact lt_trans hlt this

theorem wf_lookup (es : List (String × Value)) (k : String) (v : Value)
    (hwf : wfEntriesB es = true) (h : Value.lookup es k = some v) :
    wfB v = true := by
  induction es with
  | nil => simp [Value.lookup] at h
  | cons hd tl ih =>
    obtain ⟨k0, v0⟩ := hd
    obtain ⟨hv0, htl⟩ := wfEntriesB_head k0 v0 tl hwf
    simp only [Value.lookup] at h
    by_cases he : k0 = k
    · rw [if_pos he] at h
      cases h
      exact hv0
    · rw [if_neg he] at h
      exact ih htl h

theorem pairwise_keys_nodup (es : List (String × Value))
    (h : es.Pairwise (fun p q => p.1.data < q.1.data)) :
    (es.map Prod.fst).Nodup := by
  rw [List.Nodup, List.pairwise_map]
  refine h.imp ?_
  intro a b hab hEq
  rw [hEq] at hab
  exact lt_irrefl _ hab

theorem disjoint_lookup (as bs : List (String × Value)) (k : String)
    (v w : Value) (hd : disjointEntriesB as bs = true)
    (hv : Value.lookup as k = some v) (hw : Value.lookup bs k = some w) :
    disjointB v w = true := by
  induction as with
  | nil => simp [Value.lookup] at hv
  | cons hd0 tl ih =>
    obtain ⟨k0, v0⟩ := hd0
    rw [disjointEntriesB] at hd
    simp only [Bool.and_eq_true] at hd
    simp only [Value.lookup] at hv
    by_cases he : k0 = k
    · subst he
      rw [if_pos rfl] at hv
      cases hv
      rw [hw] at hd
      exact hd.1
    · rw [if_neg he] at hv
      exact ih hd.2 hv

theorem disjointB_shapes (v w : Value) (h : disjointB v w = true) :
    ∃ vs ws, v = Value.obj vs ∧ w = Value.obj ws ∧ disjointEntriesB vs ws = true := by
  cases v <;> cases w <;> simp_all [disjointB]

theorem head_lookup_none (k : String) (v : Value) (tl : List (String × Value))
    (hp : ((k, v) :: tl).Pairwise (fun p q => p.1.data < q.1.data)) :
    Value.lookup tl k = none := by
  apply lookup_eq_none_of_not_mem
  intro hmem
  obtain ⟨p, hpmem, hpk⟩ := List.mem_map.mp hmem
  have := (List.pairwise_cons.mp hp).1 p hpmem
  rw [hpk] at this
  exact lt_irrefl _ this

theorem sorted_lookup_ext (es : List (String × Value)) :
    ∀ (fs : List (String × Value)),
    es.Pairwise (fun p q => p.1.data < q.1.data) →
    fs.Pairwise (fun p q => p.1.data < q.1.data) →
    (∀ k, Value.lookup es k = Value.lookup fs k) → es = fs := by
  induction es with
  | nil =>
    intro fs _ _ h
    cases fs with
    | nil => rfl
    | cons hd tl =>
      obtain ⟨k, v⟩ := hd
      have := h k
      simp [Value.lookup] at this
  | cons hd tl ih =>
    intro fs hes hfs h
    obtain ⟨k1, v1⟩ := hd
    cases fs with
    | nil =>
      have := h k1
      simp [Value.lookup] at this
    | cons hd2 tl2 =>
      obtain ⟨k2, v2⟩ := hd2
      have hk : k1 = k2 := by
        by_contra hne
        have h1 := h k1
        have h2 := h k2
        rw [Value.lookup, if_pos rfl] at h1
        conv at h1 => rw [Value.lookup]
        rw [if_neg (fun he => hne he.symm)] at h1
        have hm1 := lookup_mem tl2 k1 v1 h1.symm
        have hlt1 := (List.pairwise_cons.mp hfs).1 _ hm1
        conv at h2 => rw [Value.lookup, Value.lookup]
        rw [if_pos rfl, if_neg hne] at h2
        have hm2 := lookup_mem tl k2 v2 h2
        have hlt2 := (List.pairwise_cons.mp hes).1 _ hm2
        exact absurd hlt2 (lt_asymm hlt1)
      subst hk
      have hv : v1 = v2 := by
        have h1 := h k1
        rw [Value.lookup, if_pos rfl, Value.lookup, if_pos rfl] at h1
        cases h1
        rfl
      subst hv
      have htails : ∀ k, Value.lookup tl k = Value.lookup tl2 k := by
        intro k
        by_cases he : k = k1
        · subst he
          rw [head_lookup_none k v1 tl hes, head_lookup_none k v1 tl2 hfs]
        · have hk := h k
          rw [Value.lookup, if_neg (fun hh => he hh.symm), Value.lookup,
            if_neg (fun hh => he hh.symm)] at hk
          exact hk
      rw [ih tl2 (List.pairwise_cons.mp hes).2 (List.pairwise_cons.mp hfs).2 htails]

theorem keys_insertSorted (k : String) (v : Value) (es : List (String × Value))
    (p : String × Value) (hp : p ∈ Value.insertSorted k v es) :
    p.1 = k ∨ p ∈ es := by
  induction es with
  | nil =>
    simp only [Value.insertSorted, List.mem_singleton] at hp
    subst hp
    exact Or.inl rfl
  | cons hd tl ih =>
    obtain ⟨k0, v0⟩ := hd
    simp only [Value.insertSorted] at hp
    split at hp
    · rcases List.mem_cons.mp hp with hp | hp
      · subst hp; exact Or.inl rfl
      · exact Or.inr hp
    · split at hp
      · rcases List.mem_cons.mp hp with hp | hp
        · subst hp; exact Or.inl rfl
        · exact Or.inr (List.mem_cons_of_mem _ hp)
      · rcases List.mem_cons.mp hp with hp | hp
        · subst hp; exact Or.inr (List.mem_cons_self _ _)
        · rcases ih hp with hh | hh
          · exact Or.inl hh
          · exact Or.inr (List.mem_cons_of_mem _ hh)

theorem insertSorted_pairwise (k : String) (v : Value) (es : List (String × Value))
    (hp : es.Pairwise (fun p q => p.1.data < q.1.data)) :
    (Value.insertSorted k v es).Pairwise (fun p q => p.1.data < q.1.data) := by
  induction es with
  | nil => simp [Value.insertSorted]
  | cons hd tl ih =>
    obtain ⟨k0, v0⟩ := hd
    obtain ⟨hhead, htl⟩ := List.pairwise_cons.mp hp
    simp only [Value.insertSorted]
    split
    · refine List.Pairwise.cons ?_ hp
      intro q hq
      rcases List.mem_cons.mp hq with hq | hq
      · subst hq; assumption
      · exact lt_trans (by assumption) (hhead q hq)
    · split
      · refine List.Pairwise.cons ?_ htl
        intro q hq
        have heq : k = k0 := by assumption
        rw [heq]
        exact hhead q hq
      · have hne : ¬ k = k0 := by assumption
        have hnlt : ¬ k.data < k0.data := by assumption
        have hgt : k0.data < k.data := by
          rcases lt_trichotomy k.data k0.data with h | h | h
          · exact absurd h hnlt
          · exact absurd (by cases k; cases k0; simp only at h; rw [h]) hne
          · exact h
        refine List.Pairwise.cons ?_ (ih htl)
        intro q hq
        rcases keys_insertSorted k v tl q hq with hh | hh
        · rw [hh]; exact hgt
        · exact hhead q hh

theorem mergeKey_pairwise (b : List (String × Value)) (k : String) (v : Value)
    (hp : b.Pairwise (fun p q => p.1.data < q.1.data)) :
    (mergeKey b k v).Pairwise (fun p q => p.1.data < q.1.data) := by
  unfold mergeKey
  cases Value.lookup b k <;> exact insertSorted_pairwise _ _ _ hp

theorem mergeEntries_pairwise (o : List (String × Value)) :
    ∀ (b : List (String × Value)),
    b.Pairwise (fun p q => p.1.data < q.1.data) →
    (mergeEntries b o).Pairwise (fun p q => p.1.data < q.1.data) := by
  induction o with
  | nil => intro b hp; simpa [mergeEntries] using hp
  | cons hd rest ih =>
    intro b hp
    obtain ⟨k, v⟩ := hd
    rw [mergeEntries]
    exact ih (mergeKey b k v) (mergeKey_pairwise b k v hp)

theorem deep_merge_last_writer (path : List String) :
    ∀ (a b v : Value), wfB b = true → v.isObj = false → getPath b path = some v →
    getPath (deep_merge a b) path = some v := by
  induction path with
  | nil =>
    intro a b v _ hv h
    simp only [getPath, Option.some_inj] at h
    subst h
    cases a <;> cases b <;> simp_all [deep_merge, Value.isObj, getPath]
  | cons p ps ih =>
    intro a b v hwf hv h
    cases b with
    | obj bs =>
      simp only [getPath] at h
      cases hbv : Value.lookup bs p with
      | none => rw [hbv] at h; cases h
      | some bv =>
        rw [hbv] at h
        have hwfbs : wfEntriesB bs = true := by simpa [wfB] using hwf
        have hwfbv : wfB bv = true := wf_lookup bs p bv hwfbs hbv
        cases a with
        | obj as =>
          simp only [deep_merge, getPath]
          have hnd : (bs.map Prod.fst).Nodup :=
            pairwise_keys_nodup bs (wf_pairwise bs hwfbs)
          rw [lookup_mergeEntries bs as p hnd, hbv]
          cases hav : Value.lookup as p with
          | none => simpa using h
          | some av => simpa using ih av bv v hwfbv hv h
        | null => simp only [deep_merge, getPath]; rw [hbv]; exact h
        | bool b => simp only [deep_merge, getPath]; rw [hbv]; exact h
        | int n => simp only [deep_merge, getPath]; rw [hbv]; exact h
        | uint n => simp only [deep_merge, getPath]; rw [hbv]; exact h
        | float q => simp only [deep_merge, getPath]; rw [hbv]; exact h
        | str s => simp only [deep_merge, getPath]; rw [hbv]; exact h
        | arr xs => simp only [deep_merge, getPath]; rw [hbv]; exact h
    | null => simp [getPath] at h
    | bool b => simp [getPath] at h
    | int n => simp [getPath] at h
    | uint n => simp [getPath] at h
    | float q => simp [getPath] at h
    | str s => simp [getPath] at h
    | arr xs => simp [getPath] at h

theorem dm_comm_aux (n : Nat) :
    ∀ (a b : Value), sizeOf a + sizeOf b ≤ n → disjointB a b = true →
      wfB a = true → wfB b = true → deep_merge a b = deep_merge b a := by
  induction n using Nat.strong_induction_on with
  | _ n ih =>
    intro a b hn hd ha hb
    obtain ⟨as, bs, rfl, rfl, hde⟩ := disjointB_shapes _ _ hd
    have hwfas : wfEntriesB as = true := by simpa [wfB] using ha
    have hwfbs : wfEntriesB bs = true := by simpa [wfB] using hb
    have hpas := wf_pairwise as hwfas
    have hpbs := wf_pairwise bs hwfbs
    have hndas := pairwise_keys_nodup as hpas
    have hndbs := pairwise_keys_nodup bs hpbs
    simp only [deep_merge]
    congr 1
    apply sorted_lookup_ext
    · exact mergeEntries_pairwise bs as hpas
    · exact mergeEntries_pairwise as bs hpbs
    · intro k
      rw [lookup_mergeEntries bs as k hndbs, lookup_mergeEntries as bs k hndas]
      cases hak : Value.lookup as k with
      | none => cases hbk : Value.lookup bs k <;> simp
      | some va =>
        cases hbk : Value.lookup bs k with
        | none => simp
        | some vb =>
          simp only [Option.some_inj]
          have hdvw := disjoint_lookup as bs k va vb hde hak hbk
          have hsa := sizeOf_lookup_lt as k va hak
          have hsb := sizeOf_lookup_lt bs k vb hbk
          exact ih (sizeOf va + sizeOf vb) (by omega) va vb le_rfl hdvw
            (wf_lookup as k va hwfas hak) (wf_lookup bs k vb hwfbs hbk)

theorem dm_comm (a b : Value) (hd : disjointB a b = true)
    (ha : wfB a = true) (hb : wfB b = true) :
    deep_merge a b = deep_merge b a :=
  dm_comm_aux (sizeOf a + sizeOf b) a b le_rfl hd ha hb

theorem dm_assoc_aux (n : Nat) :
    ∀ (a b c : Value), sizeOf a + sizeOf b + sizeOf c ≤ n →
      disjointB a b = true → disjointB a c = true → disjointB b c = true →
      wfB a = true → wfB b = true → wfB c = true →
      deep_merge (deep_merge a b) c = deep_merge a (deep_merge b c) := by
  induction n using Nat.strong_induction_on with
  | _ n ih =>
    intro a b c hn hab hac hbc ha hb hc
    obtain ⟨as, bs, rfl, rfl, hdab⟩ := disjointB_shapes _ _ hab
    obtain ⟨bs', cs, hb', rfl, hdbc⟩ := disjointB_shapes _ _ hbc
    cases hb'
    have hdac : disjointEntriesB as cs = true := by
      obtain ⟨as', cs', h1, h2, h3⟩ := disjointB_shapes _ _ hac
      cases h1; cases h2; exact h3
    have hwfas : wfEntriesB as = true := by simpa [wfB] using ha
    have hwfbs : wfEntriesB bs = true := by simpa [wfB] using hb
    have hwfcs : wfEntriesB cs = true := by simpa [wfB] using hc
    have hpas := wf_pairwise as hwfas
    have hpbs := wf_pairwise bs hwfbs
    have hpcs := wf_pairwise cs hwfcs
    have hndbs := pairwise_keys_nodup bs hpbs
    have hndcs := pairwise_keys_nodup cs hpcs
    have hpBC := mergeEntries_pairwise cs bs hpbs
    have hndBC := pairwise_keys_nodup _ hpBC
    simp only [deep_merge]
    congr 1
    apply sorted_lookup_ext
    · exact mergeEntries_pairwise cs (mergeEntries as bs) (mergeEntries_pairwise bs as hpas)
    · exact mergeEntries_pairwise (mergeEntries bs cs) as hpas
    · intro k
      rw [lookup_mergeEntries cs (mergeEntries as bs) k hndcs,
        lookup_mergeEntries (mergeEntries bs cs) as k hndBC,
        lookup_mergeEntries bs as k hndbs,
        lookup_mergeEntries cs bs k hndcs]
      cases hak : Value.lookup as k with
      | none =>
        cases hbk : Value.lookup bs k with
        | none => cases hck : Value.lookup cs k <;> simp
        | some vb => cases hck : Value.lookup cs k <;> simp
      | some va =>
        cases hbk : Value.lookup bs k with
        | none => cases hck : Value.lookup cs k <;> simp
        | some vb =>
          cases hck : Value.lookup cs k with
          | none => simp
          | some vc =>
            simp only [Option.some_inj]
            have hd1 := disjoint_lookup as bs k va vb hdab hak hbk
            have hd2 := disjoint_lookup as cs k va vc hdac hak hck
            have hd3 := disjoint_lookup bs cs k vb vc hdbc hbk hck
            have hsa := sizeOf_lookup_lt as k va hak
            have hsb := sizeOf_lookup_lt bs k vb hbk
            have hsc := sizeOf_lookup_lt cs k vc hck
            exact ih (sizeOf va + sizeOf vb + sizeOf vc) (by omega) va vb vc le_rfl
              hd1 hd2 hd3 (wf_lookup as k va hwfas hak) (wf_lookup bs k vb hwfbs hbk)
              (wf_lookup cs k vc hwfcs hck)

theorem dm_assoc (a b c : Value) (hab : disjointB a b = true)
    (hac : disjointB a c = true) (hbc : disjointB b c = true)
    (ha : wfB a = true) (hb : wfB b = true) (hc : wfB c = true) :
    deep_merge (deep_merge a b) c = deep_merge a (deep_merge b c) :=
  dm_assoc_aux (sizeOf a + sizeOf b + sizeOf c) a b c le_rfl hab hac hbc ha hb hc

/-- C9 counterexample: `deep_merge` over a sequence of layers is NOT
associative in general — the final tree DOES depend on how consecutive
merges are grouped when layers overlap. With `a = {"k":{"x":1}}`,
`b = {"k":5}` and `c = {"k":{"y":2}}`, merging left-grouped loses `x`
(the scalar `5` wipes the subtree before `c` arrives), while merging `b`
and `c` first lets `a`'s subtree survive:
`(a ⊕ b) ⊕ c = {"k":{"y":2}}` but `a ⊕ (b ⊕ c) = {"k":{"x":1,"y":2}}`. -/
theorem deep_merge_not_associative :
    deep_merge
        (deep_merge (Value.obj [("k", Value.obj [("x", Value.int 1)])])
          (Value.obj [("k", Value.int 5)]))
        (Value.obj [("k", Value.obj [("y", Value.int 2)])])
      = Value.obj [("k", Value.obj [("y", Value.int 2)])] ∧
    deep_merge (Value.obj [("k", Value.obj [("x", Value.int 1)])])
        (deep_merge (Value.obj [("k", Value.int 5)])
          (Value.obj [("k", Value.obj [("y", Value.int 2)])]))
      = Value.obj [("k", Value.obj [("x", Value.int 1), ("y", Value.int 2)])] ∧
    Value.obj [("k", Value.obj [("y", Value.int 2)])]
      ≠ Value.obj [("k", Value.obj [("x", Value.int 1), ("y", Value.int 2)])] := by
  refine ⟨?_, ?_, ?_⟩
  · simp +decide [deep_merge, mergeEntries, mergeKey, Value.lookup, Value.insertSorted]
  · simp +decide [deep_merge, mergeEntries, mergeKey, Value.lookup, Value.insertSorted]
  · simp

/-- C9 amended: `deep_merge` over layers with pairwise disjoint leaf paths
is associative (grouping-independent) and commutative
(order-independent); when two layers write the same path, the later
layer's value wins — the merged tree yields the overlay's value at every
non-object leaf path of the overlay; and `deep_merge` is not commutative
for overlapping scalar keys. Without the disjointness proviso,
associativity fails (see the counterexample). -/
theorem deep_merge_layering_amended :
    (∀ a b c : Value, disjointB a b = true → disjointB a c = true →
      disjointB b c = true → wfB a = true → wfB b = true → wfB c = true →
      deep_merge (deep_merge a b) c = deep_merge a (deep_merge b c)) ∧
    (∀ a b : Value, disjointB a b = true → wfB a = true → wfB b = true →
      deep_merge a b = deep_merge b a) ∧
    (∀ (a b v : Value) (path : List String), wfB b = true → v.isObj = false →
      getPath b path = some v → getPath (deep_merge a b) path = some v) ∧
    (deep_merge (Value.obj [("a", Value.int 1)]) (Value.obj [("a", Value.int 2)])
        = Value.obj [("a", Value.int 2)] ∧
      deep_merge (Value.obj [("a", Value.int 2)]) (Value.obj [("a", Value.int 1)])
        = Value.obj [("a", Value.int 1)] ∧
      Value.obj [("a", Value.int 2)] ≠ Value.obj [("a", Value.int 1)]) := by
  refine ⟨dm_assoc, dm_comm, fun a b v path hb hv h =>
    deep_merge_last_writer path a b v hb hv h, ?_, ?_, by simp⟩
  · simp +decide [deep_merge, mergeEntries, mergeKey, Value.lookup, Value.insertSorted]
  · simp +decide [deep_merge, mergeEntries, mergeKey, Value.lookup, Value.insertSorted]

/-- Witness for C9 amended at concrete disjoint layers and a concrete
overlapping path. -/
theorem deep_merge_layering_amended_witness :
    deep_merge
        (deep_merge (Value.obj [("a", Value.int 1)]) (Value.obj [("b", Value.int 2)]))
        (Value.obj [("c", Value.int 3)])
      = deep_merge (Value.obj [("a", Value.int 1)])
          (deep_merge (Value.obj [("b", Value.int 2)]) (Value.obj [("c", Value.int 3)])) ∧
    deep_merge (Value.obj [("a", Value.int 1)]) (Value.obj [("b", Value.int 2)])
      = deep_merge (Value.obj [("b", Value.int 2)]) (Value.obj [("a", Value.int 1)]) ∧
    getPath
        (deep_merge (Value.obj [("p", Value.int 1)]) (Value.obj [("p", Value.int 2)]))
        ["p"] = some (Value.int 2) := by
  refine ⟨?_, ?_, ?_⟩
  · exact deep_merge_layering_amended.1 _ _ _
      (by simp [disjointB, disjointEntriesB, Value.lookup])
      (by simp [disjointB, disjointEntriesB, Value.lookup])
      (by simp [disjointB, disjointEntriesB, Value.lookup])
      (by simp [wfB, wfEntriesB]) (by simp [wfB, wfEntriesB]) (by simp [wfB, wfEntriesB])
  · exact deep_merge_layering_amended.2.1 _ _
      (by simp [disjointB, disjointEntriesB, Value.lookup])
      (by simp [wfB, wfEntriesB]) (by simp [wfB, wfEntriesB])
  · exact deep_merge_layering_amended.2.2.1 _ _ (Value.int 2) ["p"]
      (by simp [wfB, wfEntriesB]) rfl (by simp [getPath, Value.lookup])

/-! ## Lemmas for the builder pipeline -/

theorem insertSorted_same (k : String) (x y : Value) :
    Value.insertSorted k y [(k, x)] = [(k, y)] := by
  simp [Value.insertSorted, lt_irrefl]

theorem deep_merge_overlay_nonobj (x w : Value) (hw : w.isObj = false) :
    deep_merge x w = w := by
  cases x <;> cases w <;> simp_all [deep_merge, Value.isObj]

theorem leafPathsOf_nonobj (w : Value) (base : String) (hw : w.isObj = false) :
    leafPathsOf w base = [base] := by
  cases w <;> simp_all [leafPathsOf, Value.isObj]

/-- C5 counterexample: after `ConfigBuilder::merge`, the tracker does NOT
describe the post-merge tree. With one file `config.json = {"port": 1}`
and environment `APP_PORT=2` under prefix `APP_`, the merged tree holds the
environment's value `2` at `port`, but the tracker's record for `port`
still names `config.json`: the environment layer is merged with no tracker
update at all (the tracker is only written for file layers, and before —
not after — each file's merge), so later environment layers never overwrite
earlier provenance. -/
theorem origin_tracking_counterexample :
    ((ConfigBuilder.new.file "config.json").env_prefix_set "APP_").merge
        [("config.json", Value.obj [("port", Value.int 1)])] [("APP_PORT", "2")]
      = .ok (Value.obj [("port", Value.int 2)],
          OriginTracker.mk (some "config.json") [("port", "config.json")]) ∧
    OriginTracker.get_file_source
        (OriginTracker.mk (some "config.json") [("port", "config.json")]) "port"
      = some "config.json" ∧
    Value.int 2 ≠ Value.int 1 := by
  refine ⟨?_, rfl, by simp⟩
  simp +decide [ConfigBuilder.new, ConfigBuilder.file, ConfigBuilder.env_prefix_set,
    ConfigBuilder.merge, mergeFiles, parse_file_with_content, lookupAssoc,
    OriginTracker.new, OriginTracker.add_source, OriginTracker.track_value,
    leafPathsOf, leafPathsEntries, joinPath, env_to_value, envStep, stripPrefixChars,
    splitOnSep, splitSepChars, insert_nested, coerce_value, eqIgnoreAsciiCase,
    asciiLowerChar, parseI64, digitsToNat, deep_merge, mergeEntries, mergeKey,
    Value.lookup, Value.insertSorted]

/-- C5 amended: the tracker is updated once per FILE layer (tracking that
layer's own tree around its merge), so later file layers overwrite earlier
file provenance at identical paths; the environment-variable layers are
merged with no tracker update, so the tracker returned by `merge` is
entirely independent of the environment snapshot and describes file
provenance only; environment attribution is layered on separately during
source tracking, where a set environment variable takes precedence over
any tracked file origin. -/
theorem origin_tracking_amended :
    (∀ (b : ConfigBuilder) (fs : List (String × Value))
      (env1 env2 : List (String × String)),
      (b.merge fs env1).map Prod.snd = (b.merge fs env2).map Prod.snd) ∧
    (((ConfigBuilder.new.file "a.json").file "b.json").merge
        [("a.json", Value.obj [("port", Value.int 1)]),
         ("b.json", Value.obj [("port", Value.int 2)])] []
      = .ok (Value.obj [("port", Value.int 2)],
          OriginTracker.mk (some "b.json")
            [("port", "a.json"), ("port", "b.json")]) ∧
      OriginTracker.get_file_source
        (OriginTracker.mk (some "b.json") [("port", "a.json"), ("port", "b.json")])
        "port" = some "b.json") ∧
    (∀ (profile : Option String) (origins : OriginTracker)
      (env : List (String × String)) (f : MacroField),
      (lookupAssoc env f.envVar).isSome = true →
      fieldSource profile origins env f = Source.Environment) := by
  refine ⟨fun b fs env1 env2 => ?_, ⟨?_, rfl⟩, fun profile origins env f h => ?_⟩
  · cases h : mergeFiles fs b.origins b.base b.files <;>
      simp [ConfigBuilder.merge, h, Except.map]
  · simp +decide [ConfigBuilder.new, ConfigBuilder.file, ConfigBuilder.merge,
      mergeFiles, parse_file_with_content, lookupAssoc, OriginTracker.new,
      OriginTracker.add_source, OriginTracker.track_value, leafPathsOf,
      leafPathsEntries, joinPath, deep_merge, mergeEntries, mergeKey,
      Value.lookup, Value.insertSorted]
  · simp [fieldSource, h]

/-- Witness for C5 amended: environment-independence of the tracker at a
concrete builder, and the separate environment-first attribution at a
concrete field. -/
theorem origin_tracking_amended_witness :
    ((ConfigBuilder.new.file "a.json").merge [("a.json", Value.obj [])]
        [("X", "1")]).map Prod.snd
      = ((ConfigBuilder.new.file "a.json").merge [("a.json", Value.obj [])] []).map
          Prod.snd ∧
    fieldSource none OriginTracker.new [("PORT", "1")] ⟨"port", "PORT", none, []⟩
      = Source.Environment := by
  constructor
  · exact origin_tracking_amended.1 (ConfigBuilder.new.file "a.json")
      [("a.json", Value.obj [])] [("X", "1")] []
  · exact origin_tracking_amended.2.2 none OriginTracker.new [("PORT", "1")]
      ⟨"port", "PORT", none, []⟩ rfl

/-- C7: with profile `"dev"` selected and a field declaring a matching
override literal `pv`: the literal becomes the field's default-layer value,
outranking the generic compile-time default `d`; with neither file nor
environment value the resolved value is `coerce(pv)` and the attributed
source is `Profile "dev"`; setting the field's environment variable to `s`
changes the resolved value to `coerce(s)` and the source to `Environment`;
and a config-file value `w` for the same path also outranks the profile
literal (source `ConfigFile`). -/
theorem profile_precedence (name envVar pvar d pv s fp : String) (w : Value)
    (hsplit : splitOnSep "." name = [name]) (hne : envVar ≠ pvar)
    (hw : w.isObj = false) :
    macroDefaults [⟨name, envVar, some d, [("dev", pv)]⟩] (some "dev")
      = [(name, coerce_value pv)] ∧
    from_config_value ⟨[⟨name, envVar, some d, [("dev", pv)]⟩], [], none,
        some pvar, none⟩ [] [(pvar, "dev")]
      = .ok (Value.obj [(name, coerce_value pv)], OriginTracker.new, some "dev") ∧
    fieldSource (some "dev") OriginTracker.new [(pvar, "dev")]
        ⟨name, envVar, some d, [("dev", pv)]⟩
      = Source.Profile "dev" ∧
    from_config_value ⟨[⟨name, envVar, some d, [("dev", pv)]⟩], [], none,
        some pvar, none⟩ [] [(pvar, "dev"), (envVar, s)]
      = .ok (Value.obj [(name, coerce_value s)], OriginTracker.new, some "dev") ∧
    fieldSource (some "dev") OriginTracker.new [(pvar, "dev"), (envVar, s)]
        ⟨name, envVar, some d, [("dev", pv)]⟩
      = Source.Environment ∧
    from_config_value ⟨[⟨name, envVar, some d, [("dev", pv)]⟩], [(fp, true)], none,
        some pvar, none⟩ [(fp, Value.obj [(name, w)])] [(pvar, "dev")]
      = .ok (Value.obj [(name, w)],
          OriginTracker.mk (some fp) [(name, fp)], some "dev") ∧
    fieldSource (some "dev") (OriginTracker.mk (some fp) [(name, fp)])
        [(pvar, "dev")] ⟨name, envVar, some d, [("dev", pv)]⟩
      = Source.ConfigFile (some fp) := by
  have hdef : macroDefaults [⟨name, envVar, some d, [("dev", pv)]⟩] (some "dev")
      = [(name, coerce_value pv)] := by
    simp [macroDefaults, lookupAssoc, Value.insertSorted, insertSorted_same, lt_irrefl]
  have hlookNo : lookupAssoc ([(pvar, "dev")] : List (String × String)) envVar
      = none := by
    simp [lookupAssoc, Ne.symm hne]
  have hlookYes : lookupAssoc ([(pvar, "dev"), (envVar, s)] : List (String × String))
      envVar = some s := by
    simp [lookupAssoc, Ne.symm hne]
  refine ⟨hdef, ?_, ?_, ?_, ?_, ?_, ?_⟩
  · simp [from_config_value, selectProfile, validateProfile, lookupAssoc,
      ConfigBuilder.new, ConfigBuilder.defaults_value, ConfigBuilder.env_mapping,
      ConfigBuilder.merge, mergeFiles, hdef, hlookNo, Ne.symm hne]
  · simp [fieldSource, hlookNo, OriginTracker.new, OriginTracker.get_file_source,
      lookupAssoc, Ne.symm hne]
  · simp [from_config_value, selectProfile, validateProfile, lookupAssoc,
      Ne.symm hne, ConfigBuilder.new, ConfigBuilder.defaults_value,
      ConfigBuilder.env_mapping, ConfigBuilder.merge, mergeFiles, hdef, hlookYes,
      hsplit, insert_nested, insertSorted_same]
  · simp [fieldSource, hlookYes]
  · simp [from_config_value, selectProfile, validateProfile, lookupAssoc,
      ConfigBuilder.new, ConfigBuilder.defaults_value, ConfigBuilder.env_mapping,
      ConfigBuilder.file, ConfigBuilder.merge, mergeFiles, parse_file_with_content,
      hdef, hlookNo, OriginTracker.new, OriginTracker.add_source,
      OriginTracker.track_value, leafPathsOf, leafPathsEntries, joinPath,
      leafPathsOf_nonobj _ _ hw, deep_merge, mergeEntries, mergeKey, Value.lookup,
      deep_merge_overlay_nonobj _ _ hw, insertSorted_same, Ne.symm hne]
  · simp [fieldSource, hlookNo, OriginTracker.get_file_source, lookupAssoc,
      Ne.symm hne]

/-- Witness for C7 at a concrete field `port` with default `"8080"`, dev
override `"3000"`, environment variable `PORT`, selector `APP_PROFILE`. -/
theorem profile_precedence_witness :
    from_config_value ⟨[⟨"port", "PORT", some "8080", [("dev", "3000")]⟩], [], none,
        some "APP_PROFILE", none⟩ [] [("APP_PROFILE", "dev")]
      = .ok (Value.obj [("port", coerce_value "3000")], OriginTracker.new, some "dev") ∧
    fieldSource (some "dev") OriginTracker.new [("APP_PROFILE", "dev"), ("PORT", "9")]
        ⟨"port", "PORT", some "8080", [("dev", "3000")]⟩
      = Source.Environment := by
  constructor
  · exact (profile_precedence "port" "PORT" "APP_PROFILE" "8080" "3000" "9" "f.json"
      Value.null rfl (by decide) rfl).2.1
  · exact (profile_precedence "port" "PORT" "APP_PROFILE" "8080" "3000" "9" "f.json"
      Value.null rfl (by decide) rfl).2.2.2.2.1

end Procenv
